import Mathlib

/-!
Verification development for the AutoTS model-selection wrapper
(src/AutoTS/AutoTS.py).

Shallow embedding conventions:
* The library assumes monthly data throughout, so dates are modelled as
  month indices of type ℤ; adding one month is adding 1, and the Python
  expression (d2.year - d1.year) * 12 + (d2.month - d1.month) is d2 - d1.
* Series values and error scores are ℚ.
* The external statistical libraries (pmdarima auto_arima, statsmodels
  ExponentialSmoothing, tbats BATS) and the error-metric module are opaque
  collaborators; they are passed in as a record of oracle functions (Libs).
* Python exceptions are modelled by the inductive type Err; fallible code
  returns Except Err or pairs a result state with an Option Err.
* A Python method mutating self is a function AutoTS → ... → AutoTS × result.
-/

/-- The model-family names accepted by the constructor (validated by
utils.validation.check_models); the source compares lowercase strings,
embedded here as a closed enum. -/
inductive ModelName
  | auto_arima
  | exponential_smoothing
  | tbats
  | ensemble
deriving DecidableEq

/-- The error-metric names accepted by the constructor ('mase'/'mse'/'rmse'). -/
inductive Metric
  | mase
  | mse
  | rmse
deriving DecidableEq

/-- Python exception outcomes of the embedded code, one constructor per raise
site or library failure class.  isValueError classifies which ones are Python
ValueError (relevant to the auto-arima retry's except clause). -/
inductive Err
  | invalidIndex            -- ValueError from check_datetime_index
  | notFitted               -- AttributeError raised at the top of predict
  | startAfterEnd           -- ValueError: end_date must come after start_date
  | startTooLate            -- ValueError: start_date more than 1 month past last date
  | startBeforeData         -- ValueError: start_date before earliest date
  | exogenousMissing        -- ValueError: exogenous regressors must be provided
  | noCandidatesToEnsemble  -- ValueError raised by the guard in fit (line 119)
  | typeErrorReduceEmpty    -- TypeError: reduce() of empty sequence with no initial value
  | typeErrorNoneData       -- TypeError: subscripting / iterating a None dataset
  | attrErrorNoneModel      -- AttributeError: method call on a None fit_model
  | indexError              -- IndexError: list index out of range
  | keyError                -- KeyError from DatetimeIndex.get_loc
  | lengthMismatch          -- ValueError from pd.Series(values, index) length mismatch
  | nanReindex              -- reindexing would introduce NaN (ℚ has no NaN marker)
  | libValueError           -- ValueError raised inside an estimation library
  | libOtherError           -- any non-ValueError exception from an estimation library
deriving DecidableEq

/-- Which Err constructors correspond to Python ValueError instances; the
auto-arima retry catches exactly these. -/
def isValueError : Err → Bool
  | .invalidIndex => true
  | .startAfterEnd => true
  | .startTooLate => true
  | .startBeforeData => true
  | .exogenousMissing => true
  | .noCandidatesToEnsemble => true
  | .lengthMismatch => true
  | .libValueError => true
  | _ => false

/-- Which Err constructors the spec's error taxonomy (section 7) classifies as
InvalidInput: date-range violations and malformed index. -/
def IsInvalidInput (e : Err) : Prop :=
  e = .startAfterEnd ∨ e = .startTooLate ∨ e = .startBeforeData ∨ e = .invalidIndex

instance (e : Err) : Decidable (IsInvalidInput e) := by
  unfold IsInvalidInput; infer_instance

/-- The kwargs dict passed through to pmdarima.auto_arima.  The only key the
source itself reads or writes is 'seasonal_test' (the retry forces it to
"ch"); the remaining opaque user-supplied keys are not modelled. -/
structure ArimaArgs where
  seasonal_test : Option String := none
deriving DecidableEq

/-- The kwargs dict passed to statsmodels ExponentialSmoothing.  The source
inserts defaults for the keys 'trend' and 'seasonal' when absent; a field
value none means the key is absent, some v means the key is present with
value v (v itself optional because Python may store None). -/
structure ESArgs where
  trend : Option (Option String) := none
  seasonal : Option (Option String) := none
deriving DecidableEq

/-- The kwargs dict passed to tbats BATS.  The source inserts defaults for
'n_jobs' and 'use_arma_errors' when absent. -/
structure TbatsArgs where
  n_jobs : Option ℕ := none
  use_arma_errors : Option Bool := none
deriving DecidableEq

/-- A pandas DataFrame with a datetime index, restricted to what the source
consumes: the index (month numbers) and the designated target column's
values, positionally aligned.  Exogenous regressor columns are tracked only
as a presence flag on calls, since their values are opaque to the core. -/
structure Frame where
  index : List ℤ
  values : List ℚ
deriving DecidableEq

/-- One row of a prediction table: a timestamp plus named columns
(for example [("actuals", a), ("aa_test_predictions", p)]). -/
structure Row where
  ts : ℤ
  cols : List (String × ℚ)
deriving DecidableEq

/-- An opaque fitted-model handle.  Each field is one method of the external
fitted object that the source calls; their outputs are arbitrary here and
constrained only by contract hypotheses in theorems. -/
structure FitModel where
  predictInSampleRange : ℕ → ℕ → List ℚ   -- pmdarima predict_in_sample(start=i, end=j)
  predictInSampleFrom : ℕ → List ℚ        -- pmdarima predict_in_sample(start=i)
  predictOut : ℕ → List ℚ                 -- pmdarima predict(n_periods=k)
  esPredictFull : ℤ → ℤ → List (ℤ × ℚ)    -- statsmodels predict(start, end), a labelled series
  forecast : ℕ → List ℚ                   -- tbats forecast(steps=k)
  yHat : List ℚ                           -- tbats in-sample fitted values y_hat

/-- Modelled from the spec: the CandidateModel record from
AutoTS/utils/CandidateModel.py, which is not under src/.  Spec section 3:
an immutable record of (error score, opaque fitted-model handle, model-type
tag, test-set prediction table); the attribute names are those used by
AutoTS.py (error, fit_model, model_type, predictions). -/
structure CandidateModel where
  error : ℚ
  fit_model : Option FitModel
  model_type : ModelName
  predictions : List Row

/-- Arguments of a pmdarima auto_arima call as issued by _fit_auto_arima. -/
structure ArimaCall where
  y : List ℚ
  seasonal : Bool
  m : ℤ
  exog : Bool
  args : ArimaArgs

/-- Arguments of a statsmodels ExponentialSmoothing(...).fit() call. -/
structure ESCall where
  y : List ℚ
  seasonal_periods : Option ℤ
  args : ESArgs

/-- Arguments of a tbats BATS(...).fit() call. -/
structure BatsCall where
  y : List ℚ
  seasonal_periods : Option (List ℤ)
  use_box_cox : Bool
  args : TbatsArgs

/-- The external collaborators: the three estimation libraries plus, modelled
from the spec, the error-metric functions of AutoTS/utils/error_metrics.py
(not under src/; spec section 1 places them out of scope as opaque pure
functions over (prediction, actual) pairs).  updateArima is pmdarima's
in-place model.update. -/
structure Libs where
  autoArima : ArimaCall → Except Err FitModel
  updateArima : FitModel → List ℚ → FitModel
  esFit : ESCall → Except Err FitModel
  batsFit : BatsCall → Except Err FitModel
  maseFn : List (ℚ × ℚ) → ℚ
  mseFn : List (ℚ × ℚ) → ℚ
  rmseFn : List (ℚ × ℚ) → ℚ

/-- The AutoTS object's attributes, exactly the ones assigned in __init__.
candidate_models is Option-typed because the source guards it against None
(fit line 118) even though __init__ initialises it to the empty list. -/
structure AutoTS where
  model_names : List ModelName
  error_metric : Metric
  is_seasonal : Bool
  seasonal_period : Option (List ℤ)
  holdout_period : ℕ
  auto_arima_args : ArimaArgs
  exponential_smoothing_args : ESArgs
  tbats_args : TbatsArgs
  data : Option Frame
  training_data : Option Frame
  testing_data : Option Frame
  series_column_name : Option String
  exogenous : Option (List String)
  using_exogenous : Bool
  candidate_models : Option (List CandidateModel)
  fit_model : Option FitModel
  fit_model_type : Option ModelName
  best_model_error : Option ℚ
  is_fitted : Bool

/-- The constructor (__init__) after its input validation: seasonal_period
may be none, a single integer (wrapped into a singleton list) or a list;
absent kwargs dicts become empty dicts. -/
def initAutoTS (names : List ModelName) (metric : Metric)
    (sp : Option (ℤ ⊕ List ℤ)) (holdout : ℕ)
    (aaArgs : Option ArimaArgs) (esArgs : Option ESArgs)
    (tbArgs : Option TbatsArgs) : AutoTS :=
  { model_names := names
    error_metric := metric
    is_seasonal := sp.isSome
    seasonal_period := sp.map (fun s => match s with | .inl x => [x] | .inr l => l)
    holdout_period := holdout
    auto_arima_args := aaArgs.getD {}
    exponential_smoothing_args := esArgs.getD {}
    tbats_args := tbArgs.getD {}
    data := none
    training_data := none
    testing_data := none
    series_column_name := none
    exogenous := none
    using_exogenous := false
    candidate_models := some []
    fit_model := none
    fit_model_type := none
    best_model_error := none
    is_fitted := false }

/-- Pairwise-adjacent strict monotonicity of a date index. -/
def strictlyMonoIdx : List ℤ → Bool
  | [] => true
  | [_] => true
  | x :: y :: rest => decide (x < y) && strictlyMonoIdx (y :: rest)

/-- Modelled from the spec: AutoTS.utils.validation.check_datetime_index
(not under src/) — spec section 4.4 step 1: fit first validates that the
series has a well-formed, strictly increasing date-like index. -/
def check_datetime_index (df : Frame) : Bool :=
  strictlyMonoIdx df.index

/-- Python negative indexing l[-k] (and l[-0], which is l[0]); none models
IndexError. -/
def pyNegIndex {α : Type} (l : List α) (k : ℕ) : Option α :=
  if k = 0 then l[0]?
  else if k ≤ l.length then l[l.length - k]?
  else none

/-- _set_input_data: stores the frame and splits off the trailing
holdout_period rows (iloc slicing; the h = 0 branches reflect that
iloc[:-0] is empty and iloc[-0:] is the whole frame in Python). -/
def set_input_data (df : Frame) (col : String) (st : AutoTS) : AutoTS :=
  let n := df.index.length
  let h := st.holdout_period
  let training : Frame :=
    if h = 0 then { index := [], values := [] }
    else { index := df.index.take (n - h), values := df.values.take (n - h) }
  let testing : Frame :=
    if h = 0 then df
    else { index := df.index.drop (n - h), values := df.values.drop (n - h) }
  { st with data := some df, training_data := some training,
            testing_data := some testing, series_column_name := some col }

/-- Column extraction from a prediction table (DataFrame column access by
name, rows in order; rows lacking the column are skipped as pandas NaN). -/
def getCol (rows : List Row) (name : String) : List ℚ :=
  rows.filterMap fun r => (r.cols.find? fun c => decide (c.1 = name)).map fun c => c.2

/-- _error_metric: dispatches on the metric configured at construction. -/
def errMetric (L : Libs) (st : AutoTS) (rows : List Row)
    (predictions_column actuals_column : String) : ℚ :=
  let pairs := (getCol rows predictions_column).zip (getCol rows actuals_column)
  match st.error_metric with
  | .mase => L.maseFn pairs
  | .mse => L.mseFn pairs
  | .rmse => L.rmseFn pairs

/-- Three-way positional zip, used to build the per-model test tables
DataFrame({'actuals': ..., '<x>_test_predictions': ...}). -/
def zipWith3 {α β γ δ : Type} (f : α → β → γ → δ) : List α → List β → List γ → List δ
  | a :: as, b :: bs, c :: cs => f a b c :: zipWith3 f as bs cs
  | _, _, _ => []

/-- Builds a test-prediction table: one row per holdout timestamp with an
'actuals' column and one named predictions column. -/
def mkTestTable (idx : List ℤ) (actuals preds : List ℚ) (predColName : String) : List Row :=
  zipWith3 (fun t a p => Row.mk t [("actuals", a), (predColName, p)]) idx actuals preds

/-- Resolution of the seasonal period handed to auto_arima: the pmdarima
default m=1 when no seasonality is configured, otherwise the first entry of
the seasonal-period list (the source indexes [0]; the headD default stands
for the IndexError an empty user-supplied list would raise). -/
def arimaSeasonalPeriod (st : AutoTS) : ℤ :=
  match st.seasonal_period with
  | none => 1
  | some l => l.headD 1

/-- Resolution of the single seasonal period handed to ExponentialSmoothing
(es supports only one seasonality, so the first list entry is used). -/
def esSeasonalPeriod (st : AutoTS) : Option ℤ :=
  match st.seasonal_period with
  | none => none
  | some l => some (l.headD 0)

/-- The auto_arima call built by _fit_auto_arima from the current state and
the given kwargs dict. -/
def mkArimaCall (st : AutoTS) (model_data : Frame) (args : ArimaArgs) : ArimaCall :=
  { y := model_data.values
    seasonal := st.is_seasonal
    m := arimaSeasonalPeriod st
    exog := st.using_exogenous
    args := args }

/-- The tail of _fit_auto_arima after a successful library fit: build the
holdout test table, score it, optionally update the model in place with the
testing data, and wrap everything into a CandidateModel. -/
def arimaFinish (L : Libs) (st : AutoTS) (use_full_dataset : Bool) (model : FitModel) :
    AutoTS × Except Err CandidateModel :=
  match st.testing_data with
  | none => (st, .error .typeErrorNoneData)
  | some testing =>
    let test_predictions :=
      mkTestTable testing.index testing.values (model.predictOut testing.index.length)
        "aa_test_predictions"
    let test_error := errMetric L st test_predictions "aa_test_predictions" "actuals"
    let model1 := if use_full_dataset then model else L.updateArima model testing.values
    (st, .ok ⟨test_error, some model1, .auto_arima, test_predictions⟩)

/-- _fit_auto_arima: one library call; if it raises a ValueError, force
seasonal_test="ch" into the (caller-shared) kwargs dict and retry once; a
failure of the retry, or any non-ValueError, propagates. -/
def fit_auto_arima (L : Libs) (st : AutoTS) (use_full_dataset : Bool) :
    AutoTS × Except Err CandidateModel :=
  let opt_model_data := if use_full_dataset then st.data else st.training_data
  match opt_model_data with
  | none => (st, .error .typeErrorNoneData)
  | some model_data =>
    match L.autoArima (mkArimaCall st model_data st.auto_arima_args) with
    | .ok model => arimaFinish L st use_full_dataset model
    | .error e =>
      if isValueError e then
        let newArgs := { st.auto_arima_args with seasonal_test := some "ch" }
        let st1 := { st with auto_arima_args := newArgs }
        match L.autoArima (mkArimaCall st1 model_data newArgs) with
        | .ok model => arimaFinish L st1 use_full_dataset model
        | .error e2 => (st1, .error e2)
      else (st, .error e)

/-- _fit_exponential_smoothing: inserts the default kwargs 'trend'='add' and
'seasonal'=('add' when seasonal else None) into the caller-shared dict when
the keys are absent, fits, predicts over the holdout range by date, scores,
and wraps the result. -/
def fit_exponential_smoothing (L : Libs) (st : AutoTS) (use_full_dataset : Bool) :
    AutoTS × Except Err CandidateModel :=
  let opt_model_data := if use_full_dataset then st.data else st.training_data
  let ea0 := st.exponential_smoothing_args
  let ea1 := if ea0.trend = none then { ea0 with trend := some (some "add") } else ea0
  let ea2 :=
    if ea1.seasonal = none then
      { ea1 with seasonal := some (if st.seasonal_period ≠ none then some "add" else none) }
    else ea1
  let st1 := { st with exponential_smoothing_args := ea2 }
  match opt_model_data with
  | none => (st1, .error .typeErrorNoneData)
  | some model_data =>
    match L.esFit { y := model_data.values, seasonal_periods := esSeasonalPeriod st1, args := ea2 } with
    | .error e => (st1, .error e)
    | .ok model =>
      match st1.testing_data with
      | none => (st1, .error .typeErrorNoneData)
      | some testing =>
        match pyNegIndex testing.index st1.holdout_period, pyNegIndex testing.index 1 with
        | some s, some e =>
          let preds := model.esPredictFull s e
          let test_predictions :=
            mkTestTable testing.index testing.values (preds.map fun p => p.2)
              "es_test_predictions"
          let err := errMetric L st1 test_predictions "es_test_predictions" "actuals"
          (st1, .ok ⟨err, some model, .exponential_smoothing, test_predictions⟩)
        | _, _ => (st1, .error .indexError)

/-- _fit_tbats: inserts the default kwargs 'n_jobs'=1 and
'use_arma_errors'=False into the caller-shared dict when absent, fits with
use_box_cox=False, forecasts over the holdout, scores, wraps. -/
def fit_tbats (L : Libs) (st : AutoTS) (use_full_dataset : Bool) :
    AutoTS × Except Err CandidateModel :=
  let opt_model_data := if use_full_dataset then st.data else st.training_data
  let ta0 := st.tbats_args
  let ta1 := if ta0.n_jobs = none then { ta0 with n_jobs := some 1 } else ta0
  let ta2 := if ta1.use_arma_errors = none then { ta1 with use_arma_errors := some false } else ta1
  let st1 := { st with tbats_args := ta2 }
  match opt_model_data with
  | none => (st1, .error .typeErrorNoneData)
  | some model_data =>
    match L.batsFit { y := model_data.values, seasonal_periods := st1.seasonal_period,
                      use_box_cox := false, args := ta2 } with
    | .error e => (st1, .error e)
    | .ok fitted =>
      match st1.testing_data with
      | none => (st1, .error .typeErrorNoneData)
      | some testing =>
        let test_predictions :=
          mkTestTable testing.index testing.values (fitted.forecast testing.index.length)
            "tb_test_predictions"
        let err := errMetric L st1 test_predictions "tb_test_predictions" "actuals"
        (st1, .ok ⟨err, some fitted, .tbats, test_predictions⟩)

/-- Python str.endswith, over the character data (String.endsWith itself is
not kernel-reducible, so the embedding uses the list form). -/
def strEndsWith (s post : String) : Bool :=
  post.data.isSuffixOf s.data

/-- The row-wise mean over the columns whose name ends in "predictions"
(line 280 of the source). -/
def rowMeanPredictionCols (r : Row) : ℚ :=
  let ps := r.cols.filter fun c => strEndsWith c.1 "predictions"
  (ps.map fun c => c.2).sum / (ps.length : ℚ)

/-- pd.merge(left, right.drop('actuals'), left_index=True, right_index=True):
an index inner join keeping left's columns and right's non-'actuals'
columns (duplicate index keys, which never occur here, are not modelled). -/
def mergeDropActuals (left right : List Row) : List Row :=
  left.filterMap fun r =>
    (right.find? fun x => decide (x.ts = r.ts)).map fun x =>
      Row.mk r.ts (r.cols ++ x.cols.filter fun c => !decide (c.1 = "actuals"))

/-- DataFrame column selection df[[names]] in the given order. -/
def selectColumns (r : Row) (names : List String) : Row :=
  Row.mk r.ts (names.filterMap fun nm =>
    (r.cols.find? fun c => decide (c.1 = nm)).map fun c => (nm, c.2))

/-- _fit_ensemble: reduce-merge every prior candidate's test table on
timestamp, add the row-mean of the prediction-suffixed columns as
'en_test_predictions', score that column, and return a CandidateModel with
no fitted handle.  functools.reduce of an empty sequence raises TypeError. -/
def fit_ensemble (L : Libs) (st : AutoTS) : Except Err CandidateModel :=
  match st.candidate_models with
  | none => .error .typeErrorNoneData
  | some cs =>
    match cs.map (fun c => c.predictions) with
    | [] => .error .typeErrorReduceEmpty
    | t :: ts =>
      let all_predictions := ts.foldl mergeDropActuals t
      let withMean := all_predictions.map fun r =>
        Row.mk r.ts (r.cols ++ [("en_test_predictions", rowMeanPredictionCols r)])
      let err := errMetric L st withMean "en_test_predictions" "actuals"
      .ok ⟨err, none, .ensemble, withMean.map fun r =>
        selectColumns r ["actuals", "en_test_predictions"]⟩

/-- Stable insertion of a candidate after every already-placed candidate of
less-or-equal error (helper for the embedding of Python's stable sorted). -/
def insertByError (c : CandidateModel) : List CandidateModel → List CandidateModel
  | [] => [c]
  | d :: ds => if d.error ≤ c.error then d :: insertByError c ds else c :: d :: ds

/-- sorted(candidate_models, key=lambda x: x.error): Python's sort is stable
ascending; embedded as a stable insertion sort, extensionally the unique
stable sort by the error key. -/
def sortByError (l : List CandidateModel) : List CandidateModel :=
  l.foldl (fun acc c => insertByError c acc) []

/-- Lines 128-132 of fit: sort the candidates ascending by error, store the
sorted list, and retain the first element's error, fitted handle and
model-type tag; indexing [0] on an empty list raises IndexError. -/
def selectBest (cs : List CandidateModel) (st : AutoTS) : AutoTS × Option Err :=
  let sortedCs := sortByError cs
  let st1 := { st with candidate_models := some sortedCs }
  match sortedCs with
  | [] => (st1, some .indexError)
  | m :: _ => ({ st1 with best_model_error := some m.error, fit_model := m.fit_model,
                          fit_model_type := some m.model_type, is_fitted := true }, none)

/-- self.candidate_models.append(cm); appending to None raises
AttributeError. -/
def appendCandidate (st : AutoTS) (cm : CandidateModel) : AutoTS × Option Err :=
  match st.candidate_models with
  | none => (st, some .attrErrorNoneModel)
  | some cs => ({ st with candidate_models := some (cs ++ [cm]) }, none)

/-- Early-exit sequencing of fit's steps: an exception aborts the rest of the
fit call while keeping the mutations made so far. -/
def andThen (r : AutoTS × Option Err) (f : AutoTS → AutoTS × Option Err) :
    AutoTS × Option Err :=
  match r with
  | (st, some e) => (st, some e)
  | (st, none) => f st

/-- One conditional fitter invocation inside fit: if the model name is
configured, run its fitter on the full dataset and append the resulting
candidate. -/
def fitStep (L : Libs) (name : ModelName)
    (fitter : Libs → AutoTS → Bool → AutoTS × Except Err CandidateModel)
    (st : AutoTS) : AutoTS × Option Err :=
  if name ∈ st.model_names then
    match fitter L st true with
    | (st1, .error e) => (st1, some e)
    | (st1, .ok cm) => appendCandidate st1 cm
  else (st, none)

/-- The ensemble step of fit, including the line-118 guard, which compares
the candidate list against None (not against the empty list). -/
def fitStepEnsemble (L : Libs) (st : AutoTS) : AutoTS × Option Err :=
  if ModelName.ensemble ∈ st.model_names then
    if st.candidate_models.isNone then (st, some .noCandidatesToEnsemble)
    else
      match fit_ensemble L st with
      | .error e => (st, some e)
      | .ok cm => appendCandidate st cm
  else (st, none)

/-- The final selection step of fit (sort, retain winner, set is_fitted);
sorted(None) would raise TypeError. -/
def finalize (st : AutoTS) : AutoTS × Option Err :=
  match st.candidate_models with
  | none => (st, some .typeErrorNoneData)
  | some cs => selectBest cs st

/-- AutoTS.fit: validate the index, store and split the data, record the
exogenous configuration, run the configured fitters in the fixed order
auto_arima, exponential_smoothing, tbats, ensemble, then sort and retain the
winner.  The returned pair is the mutated object together with the raised
exception, if any (none means fit returned normally and is_fitted is True). -/
def fit (L : Libs) (df : Frame) (col : String) (exog : Option (List String))
    (st : AutoTS) : AutoTS × Option Err :=
  if check_datetime_index df = false then (st, some .invalidIndex)
  else
    let st1 := set_input_data df col st
    let st2 := if exog.isSome then { st1 with using_exogenous := true, exogenous := exog }
               else st1
    andThen (andThen (andThen (andThen
      (fitStep L .auto_arima fit_auto_arima st2)
      (fitStep L .exponential_smoothing fit_exponential_smoothing))
      (fitStep L .tbats fit_tbats))
      (fitStepEnsemble L))
      finalize

/-- pd.date_range(a, b, freq='MS') over month indices: [a, a+1, ..., b]. -/
def dateRange (a b : ℤ) : List ℤ :=
  (List.range (b + 1 - a).toNat).map fun (i : ℕ) => a + (i : ℤ)

/-- DatetimeIndex.get_loc: position of a date in the index (none = KeyError). -/
def idxLoc : List ℤ → ℤ → Option ℕ
  | [], _ => none
  | x :: xs, d => if x = d then some 0 else (idxLoc xs d).map (· + 1)

/-- pd.Series(values, index=pd.date_range(a, b)) built from a positional
array: pandas raises ValueError when the lengths differ. -/
def mkSeriesChecked (vals : List ℚ) (a b : ℤ) : Except Err (List (ℤ × ℚ)) :=
  let idx := dateRange a b
  if vals.length = idx.length then .ok (idx.zip vals) else .error .lengthMismatch

/-- pd.Series(series, index=idx) built from an already-labelled series:
pandas reindexes by label; a label missing from the data would become NaN,
which ℚ cannot represent, so that case is an error marker (never reached
under the range hypotheses used in the theorems). -/
def reindexSeries (sr : List (ℤ × ℚ)) (idx : List ℤ) : Except Err (List (ℤ × ℚ)) :=
  if idx.all (fun t => (sr.find? fun p => decide (p.1 = t)).isSome) then
    .ok (idx.filterMap fun t => (sr.find? fun p => decide (p.1 = t)).map fun p => (t, p.2))
  else .error .nanReindex

/-- _predict_auto_arima: classify [start_date, end_date] against the last
observed date (strictly, as in the source), fetch in-sample and/or
out-of-sample predictions, and wrap them in a date_range-indexed series. -/
def predict_auto_arima (st : AutoTS) (start_date end_date last_data_date : ℤ)
    (_exog : Option Frame) : Except Err (List (ℤ × ℚ)) :=
  match st.data, st.fit_model with
  | some df, some fm =>
    match pyNegIndex df.index 1 with
    | none => .error .indexError
    | some lastIdx =>
      if start_date < lastIdx ∧ end_date ≤ lastIdx then
        match idxLoc df.index start_date, idxLoc df.index end_date with
        | some ls, some le => mkSeriesChecked (fm.predictInSampleRange ls le) start_date end_date
        | _, _ => .error .keyError
      else if start_date < lastIdx ∧ lastIdx < end_date then
        let num_extra_months := (end_date - last_data_date).toNat
        match idxLoc df.index start_date with
        | none => .error .keyError
        | some ls =>
          mkSeriesChecked (fm.predictInSampleFrom ls ++ fm.predictOut num_extra_months)
            start_date end_date
      else
        let months_to_predict := (end_date - start_date + 1).toNat
        mkSeriesChecked (fm.predictOut months_to_predict) start_date end_date
  | none, _ => .error .typeErrorNoneData
  | _, none => .error .attrErrorNoneModel

/-- _predict_exponential_smoothing: delegates entirely to the fitted model's
date-based predict and returns its labelled series unchanged. -/
def predict_exponential_smoothing (st : AutoTS) (start_date end_date : ℤ) :
    Except Err (List (ℤ × ℚ)) :=
  match st.fit_model with
  | none => .error .attrErrorNoneModel
  | some fm => .ok (fm.esPredictFull start_date end_date)

/-- _predict_tbats: rebuild the in-sample series from y_hat over the observed
date range, then classify and stitch exactly as the source does (note the
first branch compares against the in-sample series' last label, the second
against the data's last date). -/
def predict_tbats (st : AutoTS) (start_date end_date last_data_date : ℤ) :
    Except Err (List (ℤ × ℚ)) :=
  match st.data, st.fit_model with
  | some df, some fm =>
    match df.index.head?, pyNegIndex df.index 1 with
    | some firstIdx, some lastIdx =>
      if fm.yHat.length = (dateRange firstIdx lastIdx).length then
        let in_sample_preds := (dateRange firstIdx lastIdx).zip fm.yHat
        match pyNegIndex (in_sample_preds.map fun p => p.1) 1 with
        | none => .error .indexError
        | some inLast =>
          if start_date < inLast ∧ end_date ≤ inLast then
            let sliced := in_sample_preds.filter fun p =>
              decide (start_date ≤ p.1 ∧ p.1 ≤ end_date)
            reindexSeries sliced (dateRange start_date end_date)
          else if start_date < lastIdx ∧ lastIdx < end_date then
            let num_extra_months := (end_date - last_data_date).toNat
            let in_sample_portion :=
              (in_sample_preds.filter fun p => decide (start_date ≤ p.1)).map fun p => p.2
            mkSeriesChecked (in_sample_portion ++ fm.forecast num_extra_months)
              start_date end_date
          else
            let months_to_predict := (end_date - start_date + 1).toNat
            mkSeriesChecked (fm.forecast months_to_predict) start_date end_date
      else .error .lengthMismatch
    | _, _ => .error .indexError
  | none, _ => .error .typeErrorNoneData
  | _, none => .error .attrErrorNoneModel

/-- One family block of _predict_ensemble: when the family is configured,
re-target self.fit_model to the last candidate of that family (a loop over
all candidates in the source), run the family predictor on the re-targeted
state, and append the renamed series. -/
def ensAdd (st : AutoTS) (name : ModelName) (colName : String)
    (run : AutoTS → Except Err (List (ℤ × ℚ)))
    (acc : List (String × List (ℤ × ℚ))) :
    AutoTS × Except Err (List (String × List (ℤ × ℚ))) :=
  if name ∈ st.model_names then
    match st.candidate_models with
    | none => (st, .error .typeErrorNoneData)
    | some cs =>
      let st1 :=
        match (cs.filter fun c => decide (c.model_type = name)).getLast? with
        | some c => { st with fit_model := c.fit_model }
        | none => st
      match run st1 with
      | .error e => (st1, .error e)
      | .ok preds => (st1, .ok (acc ++ [(colName, preds)]))
  else (st, .ok acc)

/-- A renamed prediction series as a one-column table, for the ensemble
predictor's index join. -/
def seriesToRows (nm : String) (sr : List (ℤ × ℚ)) : List Row :=
  sr.map fun p => Row.mk p.1 [(nm, p.2)]

/-- pd.merge on index keeping all columns of both sides (the ensemble
predictor's join of the renamed series). -/
def mergeKeepAll (left right : List Row) : List Row :=
  left.filterMap fun r =>
    (right.find? fun x => decide (x.ts = r.ts)).map fun x =>
      Row.mk r.ts (r.cols ++ x.cols)

/-- Row-wise mean over every column (line 396 of the source averages all
columns of the joined frame). -/
def rowMeanAllCols (r : Row) : ℚ :=
  (r.cols.map fun c => c.2).sum / (r.cols.length : ℚ)

/-- The tail of _predict_ensemble after the per-family sub-predictions have
been collected: join the renamed series on timestamp (reduce raising
TypeError when there is none), average row-wise, clear fit_model and restore
fit_model_type, and wrap into a date_range-indexed series. -/
def ensembleCombine (st : AutoTS) (start_date end_date : ℤ)
    (acc : List (String × List (ℤ × ℚ))) : AutoTS × Except Err (List (ℤ × ℚ)) :=
  match acc.map (fun p => seriesToRows p.1 p.2) with
  | [] => (st, .error .typeErrorReduceEmpty)
  | t :: ts =>
    let all_predictions := ts.foldl mergeKeepAll t
    let means := all_predictions.map rowMeanAllCols
    let stD := { st with fit_model := none, fit_model_type := some .ensemble }
    match mkSeriesChecked means start_date end_date with
    | .error e => (stD, .error e)
    | .ok sr => (stD, .ok sr)

/-- _predict_ensemble: run each configured family's predictor against that
family's own fitted handle (via the mutable fit_model attribute), then
combine the collected sub-predictions. -/
def predict_ensemble (st : AutoTS) (start_date end_date last_data_date : ℤ)
    (exog : Option Frame) : AutoTS × Except Err (List (ℤ × ℚ)) :=
  match ensAdd st .auto_arima "auto_arima_predictions"
      (fun s => predict_auto_arima s start_date end_date last_data_date exog) [] with
  | (stA, .error e) => (stA, .error e)
  | (stA, .ok accA) =>
    match ensAdd stA .exponential_smoothing "exponential_smoothing_predictions"
        (fun s => predict_exponential_smoothing s start_date end_date) accA with
    | (stB, .error e) => (stB, .error e)
    | (stB, .ok accB) =>
      match ensAdd stB .tbats "tbats_predictions"
          (fun s => predict_tbats s start_date end_date last_data_date) accB with
      | (stC, .error e) => (stC, .error e)
      | (stC, .ok accC) => ensembleCombine stC start_date end_date accC

/-- AutoTS.predict: the fitted-state guard, then the date-range validations
in source order, then dispatch on the winning model's type tag.  Dates are
month indices, so the string-parsing TypeError branches of the source are
unrepresentable here.  The result is the possibly mutated object (the
ensemble path reassigns fit_model) and either an exception, or the returned
series, or none for the implicit Python None returned when the winner's tag
matches no branch. -/
def predict (st : AutoTS) (start_date end_date : ℤ) (exog : Option Frame) :
    AutoTS × Except Err (Option (List (ℤ × ℚ))) :=
  if st.is_fitted = false then (st, .error .notFitted)
  else if start_date > end_date then (st, .error .startAfterEnd)
  else
    match st.data with
    | none => (st, .error .typeErrorNoneData)
    | some df =>
      match pyNegIndex df.index 1 with
      | none => (st, .error .indexError)
      | some last_date =>
        if start_date > last_date + 1 then (st, .error .startTooLate)
        else
          match df.index.head? with
          | none => (st, .error .indexError)
          | some first_date =>
            if start_date < first_date then (st, .error .startBeforeData)
            else if st.using_exogenous = true ∧ last_date < end_date ∧ exog.isNone then
              (st, .error .exogenousMissing)
            else
              match st.fit_model_type with
              | some .auto_arima =>
                (st, (predict_auto_arima st start_date end_date last_date exog).map
                  fun s => some s)
              | some .exponential_smoothing =>
                (st, (predict_exponential_smoothing st start_date end_date).map
                  fun s => some s)
              | some .tbats =>
                (st, (predict_tbats st start_date end_date last_date).map fun s => some s)
              | some .ensemble =>
                match predict_ensemble st start_date end_date last_date exog with
                | (st1, .error e) => (st1, .error e)
                | (st1, .ok sr) => (st1, .ok (some sr))
              | none => (st, .ok none)

/-! ### Basic lemmas about the date-range and indexing helpers -/

theorem dateRange_length (a b : ℤ) : (dateRange a b).length = (b + 1 - a).toNat := by
  simp [dateRange]

theorem dateRange_cons (a b : ℤ) (h : a ≤ b) :
    dateRange a b = a :: dateRange (a + 1) b := by
  unfold dateRange
  have hn : (b + 1 - a).toNat = (b + 1 - (a + 1)).toNat + 1 := by omega
  rw [hn, List.range_succ_eq_map, List.map_cons, List.map_map]
  refine congrArg₂ _ (by simp) (List.map_congr_left ?_)
  intro i _
  simp only [Function.comp_apply]
  push_cast
  ring

theorem mem_dateRange (a b t : ℤ) : t ∈ dateRange a b ↔ a ≤ t ∧ t ≤ b := by
  unfold dateRange
  simp only [List.mem_map, List.mem_range]
  constructor
  · rintro ⟨i, hi, rfl⟩
    omega
  · rintro ⟨h1, h2⟩
    exact ⟨(t - a).toNat, by omega, by omega⟩

theorem dateRange_getElem? (a b : ℤ) (i : ℕ) (hi : i < (b + 1 - a).toNat) :
    (dateRange a b)[i]? = some (a + i) := by
  unfold dateRange
  rw [List.getElem?_map, List.getElem?_range hi]
  rfl

theorem pyNegIndex_one_dateRange (a b : ℤ) (h : a ≤ b) :
    pyNegIndex (dateRange a b) 1 = some b := by
  unfold pyNegIndex
  have hlen : (dateRange a b).length = (b + 1 - a).toNat := dateRange_length a b
  have h1 : (1 : ℕ) ≤ (dateRange a b).length := by rw [hlen]; omega
  simp only [if_neg (by omega : ¬ (1 : ℕ) = 0), if_pos h1]
  rw [hlen, dateRange_getElem? a b _ (by omega)]
  congr 1
  omega

theorem dateRange_head? (a b : ℤ) (h : a ≤ b) :
    (dateRange a b).head? = some a := by
  rw [dateRange_cons a b h]
  rfl

theorem idxLoc_dateRange (a b d : ℤ) (h1 : a ≤ d) (h2 : d ≤ b) :
    idxLoc (dateRange a b) d = some (d - a).toNat := by
  have key : ∀ n : ℕ, ∀ a' : ℤ, a' ≤ d → d ≤ b → (d - a').toNat = n →
      idxLoc (dateRange a' b) d = some n := by
    intro n
    induction n with
    | zero =>
      intro a' ha1 ha2 ha3
      have : a' = d := by omega
      subst this
      rw [dateRange_cons a' b (by omega)]
      simp [idxLoc]
    | succ k ih =>
      intro a' ha1 ha2 ha3
      have hlt : a' < d := by omega
      rw [dateRange_cons a' b (by omega)]
      simp only [idxLoc, if_neg (by omega : ¬ a' = d)]
      rw [ih (a' + 1) (by omega) ha2 (by omega)]
      rfl
  exact key _ a h1 h2 rfl

theorem dateRange_split (a m b : ℤ) (h1 : a ≤ m) (h2 : m ≤ b + 1) :
    dateRange a b = dateRange a (m - 1) ++ dateRange m b := by
  unfold dateRange
  have hn : (b + 1 - a).toNat = (m - 1 + 1 - a).toNat + (b + 1 - m).toNat := by omega
  rw [hn, List.range_add, List.map_append, List.map_map]
  congr 1
  apply List.map_congr_left
  intro i _
  simp only [Function.comp_apply]
  have hm : ((m - 1 + 1 - a).toNat : ℤ) = m - a := by omega
  push_cast
  omega

theorem filter_dateRange_between (a b s e : ℤ) (h1 : a ≤ s) (h2 : e ≤ b) (h3 : s ≤ b + 1) :
    (dateRange a b).filter (fun t => decide (s ≤ t ∧ t ≤ e)) = dateRange s e := by
  rw [dateRange_split a s b h1 h3, List.filter_append]
  have hleft : (dateRange a (s - 1)).filter (fun t => decide (s ≤ t ∧ t ≤ e)) = [] := by
    rw [List.filter_eq_nil_iff]
    intro t ht
    rw [mem_dateRange] at ht
    simp only [decide_eq_true_eq]
    omega
  rw [hleft, List.nil_append]
  by_cases hse : s ≤ e
  · rw [dateRange_split s (e + 1) b (by omega) (by omega), List.filter_append]
    have hmid : (dateRange s (e + 1 - 1)).filter (fun t => decide (s ≤ t ∧ t ≤ e)) =
        dateRange s (e + 1 - 1) := by
      rw [List.filter_eq_self]
      intro t ht
      rw [mem_dateRange] at ht
      simp only [decide_eq_true_eq]
      omega
    have hright : (dateRange (e + 1) b).filter (fun t => decide (s ≤ t ∧ t ≤ e)) = [] := by
      rw [List.filter_eq_nil_iff]
      intro t ht
      rw [mem_dateRange] at ht
      simp only [decide_eq_true_eq]
      omega
    rw [hmid, hright, List.append_nil]
    congr 1
    omega
  · have hnil : dateRange s e = [] := by
      unfold dateRange
      have : (e + 1 - s).toNat = 0 := by omega
      rw [this]
      rfl
    rw [hnil, List.filter_eq_nil_iff]
    intro t ht
    rw [mem_dateRange] at ht
    simp only [decide_eq_true_eq]
    omega

theorem filter_dateRange_ge (a b s : ℤ) (h1 : a ≤ s) (h3 : s ≤ b + 1) :
    (dateRange a b).filter (fun t => decide (s ≤ t)) = dateRange s b := by
  rw [dateRange_split a s b h1 h3, List.filter_append]
  have hleft : (dateRange a (s - 1)).filter (fun t => decide (s ≤ t)) = [] := by
    rw [List.filter_eq_nil_iff]
    intro t ht
    rw [mem_dateRange] at ht
    simp only [decide_eq_true_eq]
    omega
  have hright : (dateRange s b).filter (fun t => decide (s ≤ t)) = dateRange s b := by
    rw [List.filter_eq_self]
    intro t ht
    rw [mem_dateRange] at ht
    simp only [decide_eq_true_eq]
    omega
  rw [hleft, hright, List.nil_append]

theorem zip_fst_snd {α β : Type} (l : List (α × β)) :
    (l.map Prod.fst).zip (l.map Prod.snd) = l := by
  induction l with
  | nil => rfl
  | cons p l ih => simp [ih]

/-! ### Lemmas about the stable sort used by fit -/

theorem insertByError_perm (c : CandidateModel) (l : List CandidateModel) :
    List.Perm (insertByError c l) (c :: l) := by
  induction l with
  | nil => rfl
  | cons d ds ih =>
    unfold insertByError
    by_cases h : d.error ≤ c.error
    · rw [if_pos h]
      exact (ih.cons d).trans (List.Perm.swap c d ds)
    · rw [if_neg h]

theorem sortByError_perm (l : List CandidateModel) :
    List.Perm (sortByError l) l := by
  have aux : ∀ (l acc : List CandidateModel),
      List.Perm (l.foldl (fun acc c => insertByError c acc) acc) (acc ++ l) := by
    intro l
    induction l with
    | nil => intro acc; simp
    | cons c l ih =>
      intro acc
      have h1 := ih (insertByError c acc)
      have h2 : List.Perm (insertByError c acc ++ l) ((c :: acc) ++ l) :=
        (insertByError_perm c acc).append_right l
      have h3 : List.Perm ((c :: acc) ++ l) (acc ++ c :: l) := List.perm_middle.symm
      exact (h1.trans h2).trans h3
  simpa using aux l []

theorem insertByError_sorted (c : CandidateModel) (l : List CandidateModel)
    (h : List.Pairwise (fun x y => x.error ≤ y.error) l) :
    List.Pairwise (fun x y => x.error ≤ y.error) (insertByError c l) := by
  induction l with
  | nil => simp [insertByError]
  | cons d ds ih =>
    rcases List.pairwise_cons.mp h with ⟨hd, hds⟩
    unfold insertByError
    by_cases hc : d.error ≤ c.error
    · rw [if_pos hc]
      refine List.pairwise_cons.mpr ⟨?_, ih hds⟩
      intro x hx
      have hx' := (insertByError_perm c ds).mem_iff.mp hx
      rcases List.mem_cons.mp hx' with rfl | hmem
      · exact hc
      · exact hd x hmem
    · rw [if_neg hc]
      refine List.pairwise_cons.mpr ⟨?_, h⟩
      intro x hx
      rcases List.mem_cons.mp hx with rfl | hmem
      · linarith [lt_of_not_le hc]
      · linarith [lt_of_not_le hc, hd x hmem]

theorem sortByError_sorted (l : List CandidateModel) :
    List.Pairwise (fun x y => x.error ≤ y.error) (sortByError l) := by
  have aux : ∀ (l acc : List CandidateModel),
      List.Pairwise (fun x y => x.error ≤ y.error) acc →
      List.Pairwise (fun x y => x.error ≤ y.error)
        (l.foldl (fun acc c => insertByError c acc) acc) := by
    intro l
    induction l with
    | nil => intro acc h; exact h
    | cons c l ih => intro acc h; exact ih _ (insertByError_sorted c acc h)
  exact aux l [] (by simp)

/-- The running first-minimum combinator: keeps the earlier element on ties,
matching what a stable ascending sort places first. -/
def headStep (o : Option CandidateModel) (c : CandidateModel) : Option CandidateModel :=
  match o with
  | none => some c
  | some d => if d.error ≤ c.error then some d else some c

/-- The earliest candidate of minimal error in insertion order. -/
def firstMin (l : List CandidateModel) : Option CandidateModel :=
  l.foldl headStep none

theorem insertByError_head? (c : CandidateModel) (l : List CandidateModel) :
    (insertByError c l).head? = headStep l.head? c := by
  cases l with
  | nil => rfl
  | cons d ds =>
    unfold insertByError headStep
    by_cases h : d.error ≤ c.error
    · rw [if_pos h]
      simp [h]
    · rw [if_neg h]
      simp [h]

theorem sortByError_head? (l : List CandidateModel) :
    (sortByError l).head? = firstMin l := by
  have aux : ∀ (l acc : List CandidateModel),
      (l.foldl (fun acc c => insertByError c acc) acc).head? =
        l.foldl headStep acc.head? := by
    intro l
    induction l with
    | nil => intro acc; rfl
    | cons c l ih =>
      intro acc
      show (l.foldl (fun acc c => insertByError c acc) (insertByError c acc)).head? = _
      rw [ih (insertByError c acc), insertByError_head? c acc]
      rfl
  exact aux l []

theorem firstMin_aux_mem : ∀ (l : List CandidateModel) (o : Option CandidateModel)
    (m : CandidateModel), l.foldl headStep o = some m → o = some m ∨ m ∈ l := by
  intro l
  induction l with
  | nil => intro o m h; exact Or.inl h
  | cons c l ih =>
    intro o m h
    rcases ih (headStep o c) m h with h1 | h2
    · cases o with
      | none =>
        simp only [headStep] at h1
        exact Or.inr (by rw [← Option.some.injEq] at h1; simp_all)
      | some d =>
        simp only [headStep] at h1
        by_cases hc : d.error ≤ c.error
        · rw [if_pos hc] at h1
          exact Or.inl h1
        · rw [if_neg hc] at h1
          exact Or.inr (by simp_all)
    · exact Or.inr (List.mem_cons_of_mem c h2)

theorem firstMin_aux_min : ∀ (l : List CandidateModel) (o : Option CandidateModel)
    (m : CandidateModel), l.foldl headStep o = some m →
    (∀ d, o = some d → m.error ≤ d.error) ∧ ∀ c ∈ l, m.error ≤ c.error := by
  intro l
  induction l with
  | nil =>
    intro o m h
    refine ⟨?_, by simp⟩
    intro d hd
    simp only [List.foldl_nil] at h
    rw [hd] at h
    cases h
    exact le_refl _
  | cons c l ih =>
    intro o m h
    rcases ih (headStep o c) m h with ⟨h1, h2⟩
    have hmc : m.error ≤ c.error := by
      cases o with
      | none => exact h1 c rfl
      | some d =>
        by_cases hc : d.error ≤ c.error
        · exact le_trans (h1 d (by simp [headStep, hc])) hc
        · exact h1 c (by simp [headStep, hc])
    refine ⟨?_, ?_⟩
    · intro d hd
      subst hd
      by_cases hc : d.error ≤ c.error
      · exact h1 d (by simp [headStep, hc])
      · exact le_trans hmc (le_of_lt (lt_of_not_le hc))
    · intro x hx
      rcases List.mem_cons.mp hx with rfl | hmem
      · exact hmc
      · exact h2 x hmem

theorem foldl_headStep_some (l : List CandidateModel) (d : CandidateModel) :
    (l.foldl headStep (some d)).isSome := by
  induction l generalizing d with
  | nil => rfl
  | cons c l ih =>
    show (l.foldl headStep (headStep (some d) c)).isSome
    simp only [headStep]
    by_cases hc : d.error ≤ c.error
    · rw [if_pos hc]; exact ih d
    · rw [if_neg hc]; exact ih c

theorem foldl_headStep_combine (l : List CandidateModel) (d : CandidateModel) :
    l.foldl headStep (some d) =
      match l.foldl headStep none with
      | none => some d
      | some m => if d.error ≤ m.error then some d else some m := by
  induction l generalizing d with
  | nil => rfl
  | cons c l ih =>
    show l.foldl headStep (headStep (some d) c) = _
    have hc2 : (c :: l).foldl headStep none = l.foldl headStep (some c) := rfl
    rw [hc2, ih c]
    simp only [headStep]
    by_cases hdc : d.error ≤ c.error
    · rw [if_pos hdc, ih d]
      cases hfold : l.foldl headStep none with
      | none => simp [hdc]
      | some m =>
        by_cases hdm : d.error ≤ m.error
        · by_cases hcm : c.error ≤ m.error <;> simp [hdm, hcm, hdc]
        · have hcm : ¬ c.error ≤ m.error := by linarith [lt_of_not_le hdm]
          simp [hdm, hcm]
    · rw [if_neg hdc, ih c]
      cases hfold : l.foldl headStep none with
      | none => simp [lt_of_not_le hdc, le_of_lt (lt_of_not_le hdc), hdc]
      | some m =>
        by_cases hcm : c.error ≤ m.error
        · simp [hcm, hdc]
        · have hdm : ¬ d.error ≤ m.error := by
            by_contra hx
            exact hcm (le_trans (le_of_lt (lt_of_not_le hdc)) hx)
          simp [hcm, hdm]

theorem firstMin_decomp : ∀ (l : List CandidateModel) (m : CandidateModel),
    firstMin l = some m →
    ∃ l1 l2, l = l1 ++ m :: l2 ∧ ∀ c ∈ l1, m.error < c.error := by
  intro l
  induction l with
  | nil => intro m h; cases h
  | cons c l ih =>
    intro m h
    have hc2 : firstMin (c :: l) = l.foldl headStep (some c) := rfl
    rw [hc2, foldl_headStep_combine l c] at h
    cases hfold : l.foldl headStep none with
    | none =>
      rw [hfold] at h
      cases h
      exact ⟨[], l, rfl, by simp⟩
    | some m' =>
      rw [hfold] at h
      change (if c.error ≤ m'.error then some c else some m') = some m at h
      by_cases hcm : c.error ≤ m'.error
      · rw [if_pos hcm] at h
        cases h
        exact ⟨[], l, rfl, by simp⟩
      · rw [if_neg hcm] at h
        cases h
        rcases ih m hfold with ⟨l1, l2, hdec, hlt⟩
        refine ⟨c :: l1, l2, by rw [hdec]; rfl, ?_⟩
        intro x hx
        rcases List.mem_cons.mp hx with rfl | hmem
        · exact lt_of_not_le hcm
        · exact hlt x hmem

theorem insertByError_filter (c : CandidateModel) (l : List CandidateModel) (e : ℚ)
    (hl : List.Pairwise (fun x y => x.error ≤ y.error) l) :
    (insertByError c l).filter (fun x => decide (x.error = e)) =
      if c.error = e then l.filter (fun x => decide (x.error = e)) ++ [c]
      else l.filter (fun x => decide (x.error = e)) := by
  induction l with
  | nil =>
    unfold insertByError
    by_cases hce : c.error = e <;> simp [hce]
  | cons d ds ih =>
    rcases List.pairwise_cons.mp hl with ⟨hd, hds⟩
    unfold insertByError
    by_cases hc : d.error ≤ c.error
    · rw [if_pos hc]
      by_cases hde : d.error = e
      · rw [List.filter_cons_of_pos (by simp [hde]), List.filter_cons_of_pos (by simp [hde]),
          ih hds]
        by_cases hce : c.error = e <;> simp [hce]
      · rw [List.filter_cons_of_neg (by simp [hde]), List.filter_cons_of_neg (by simp [hde]),
          ih hds]
    · rw [if_neg hc]
      have hlt : c.error < d.error := lt_of_not_le hc
      have hnil : c.error = e → (d :: ds).filter (fun x => decide (x.error = e)) = [] := by
        intro hce
        rw [List.filter_eq_nil_iff]
        intro x hx
        simp only [decide_eq_true_eq]
        rcases List.mem_cons.mp hx with rfl | hmem
        · intro hxe
          rw [hxe] at hlt
          exact absurd hce (ne_of_lt hlt)
        · intro hxe
          have := hd x hmem
          rw [hxe] at this
          have : d.error ≤ e := this
          rw [← hce] at this
          linarith
      by_cases hce : c.error = e
      · rw [if_pos hce, hnil hce, List.filter_cons_of_pos (by simp [hce]), hnil hce]
        rfl
      · rw [if_neg hce, List.filter_cons_of_neg (by simp [hce])]

theorem sortByError_filter (l : List CandidateModel) (e : ℚ) :
    (sortByError l).filter (fun x => decide (x.error = e)) =
      l.filter (fun x => decide (x.error = e)) := by
  have aux : ∀ (l acc : List CandidateModel),
      List.Pairwise (fun x y => x.error ≤ y.error) acc →
      ((l.foldl (fun acc c => insertByError c acc) acc).filter (fun x => decide (x.error = e))) =
        acc.filter (fun x => decide (x.error = e)) ++ l.filter (fun x => decide (x.error = e)) := by
    intro l
    induction l with
    | nil => intro acc _; simp
    | cons c l ih =>
      intro acc hacc
      have hstep :
          ((c :: l).foldl (fun acc c => insertByError c acc) acc) =
            l.foldl (fun acc c => insertByError c acc) (insertByError c acc) := rfl
      rw [hstep, ih (insertByError c acc) (insertByError_sorted c acc hacc),
        insertByError_filter c acc e hacc]
      by_cases hce : c.error = e
      · rw [if_pos hce, List.filter_cons_of_pos (by simp [hce]), List.append_assoc]
        rfl
      · rw [if_neg hce, List.filter_cons_of_neg (by simp [hce])]
  have := aux l [] (by simp)
  simpa [sortByError] using this

/-! ### Shared concrete fixtures used by witness theorems -/

/-- A candidate with error 1 and tag auto_arima (for concrete instantiations). -/
def cmA : CandidateModel :=
  { error := 1, fit_model := none, model_type := .auto_arima, predictions := [] }

/-- A second candidate with the same error 1 but tag tbats, so that the pair
[cmA, cmB] exercises the tie-breaking rule. -/
def cmB : CandidateModel :=
  { error := 1, fit_model := none, model_type := .tbats, predictions := [] }

/-- A freshly constructed (unfitted) AutoTS object. -/
def st0 : AutoTS := initAutoTS [ModelName.auto_arima, .tbats] .mase none 4 none none none

/-! ### Claims -/

/-- C1: after fit completes on any non-empty candidate collection, the
retained winner's error is the minimum of all candidates' errors; the sort
over candidates is a stable ascending sort by error (a permutation, sorted,
preserving the relative order of equal-error candidates), the winner is the
first-produced candidate attaining the minimal error, and lines 128-132
retain exactly its error, fitted handle and model-type tag while setting
is_fitted. -/
theorem C1_winner_minimal_stable (cs : List CandidateModel) (st : AutoTS)
    (hne : cs ≠ []) :
    ∃ m rest, sortByError cs = m :: rest ∧
      (∀ c ∈ cs, m.error ≤ c.error) ∧
      (∃ l1 l2, cs = l1 ++ m :: l2 ∧ ∀ c ∈ l1, m.error < c.error) ∧
      List.Perm (sortByError cs) cs ∧
      List.Pairwise (fun x y => x.error ≤ y.error) (sortByError cs) ∧
      (∀ e : ℚ, (sortByError cs).filter (fun c => decide (c.error = e)) =
        cs.filter (fun c => decide (c.error = e))) ∧
      selectBest cs st =
        ({ st with candidate_models := some (sortByError cs),
                   best_model_error := some m.error,
                   fit_model := m.fit_model,
                   fit_model_type := some m.model_type,
                   is_fitted := true }, none) := by
  have hperm := sortByError_perm cs
  have hne2 : sortByError cs ≠ [] := by
    intro hx
    rw [hx] at hperm
    exact hne (hperm.symm.eq_nil)
  obtain ⟨m, rest, hsort⟩ := List.exists_cons_of_ne_nil hne2
  have hfm : firstMin cs = some m := by
    rw [← sortByError_head?, hsort]
    rfl
  refine ⟨m, rest, hsort, (firstMin_aux_min cs none m hfm).2, firstMin_decomp cs m hfm,
    hperm, sortByError_sorted cs, sortByError_filter cs, ?_⟩
  simp only [selectBest]
  rw [hsort]

/-- Witness for C1 at a concrete two-candidate tie: both have error 1 and
the earlier-produced auto_arima candidate must be the retained head. -/
theorem C1_witness :
    ∃ m rest, sortByError [cmA, cmB] = m :: rest ∧
      (∀ c ∈ [cmA, cmB], m.error ≤ c.error) ∧
      (∃ l1 l2, [cmA, cmB] = l1 ++ m :: l2 ∧ ∀ c ∈ l1, m.error < c.error) ∧
      List.Perm (sortByError [cmA, cmB]) [cmA, cmB] ∧
      List.Pairwise (fun x y => x.error ≤ y.error) (sortByError [cmA, cmB]) ∧
      (∀ e : ℚ, (sortByError [cmA, cmB]).filter (fun c => decide (c.error = e)) =
        [cmA, cmB].filter (fun c => decide (c.error = e))) ∧
      selectBest [cmA, cmB] st0 =
        ({ st0 with candidate_models := some (sortByError [cmA, cmB]),
                    best_model_error := some m.error,
                    fit_model := m.fit_model,
                    fit_model_type := some m.model_type,
                    is_fitted := true }, none) :=
  C1_winner_minimal_stable [cmA, cmB] st0 (by simp)

/-- C2: on every instance whose is_fitted flag is false (as on construction
and, by C10, after any sequence of failed fits), predict fails with the
fitted-state AttributeError regardless of its arguments, and with no other
error kind; the guard is the first check performed, before any argument
validation. -/
theorem C2_unfitted_predict_state_error (st : AutoTS) (start_date end_date : ℤ)
    (exog : Option Frame) (h : st.is_fitted = false) :
    predict st start_date end_date exog = (st, .error .notFitted) := by
  simp [predict, h]

/-- Witness for C2: a freshly constructed object, with deliberately invalid
date arguments (start after end), still yields exactly the state error. -/
theorem C2_witness :
    st0.is_fitted = false ∧ predict st0 7 2 none = (st0, .error .notFitted) :=
  ⟨rfl, C2_unfitted_predict_state_error st0 7 2 none rfl⟩

/-! ### Preservation lemmas: configuration fields and the fitted flag -/

/-- The constructor-set configuration fields of spec section 3: model set,
error metric, seasonality, holdout length. -/
def configOf (st : AutoTS) : List ModelName × Metric × Bool × Option (List ℤ) × ℕ :=
  (st.model_names, st.error_metric, st.is_seasonal, st.seasonal_period, st.holdout_period)

theorem core_fit_auto_arima (L : Libs) (st : AutoTS) (full : Bool) :
    configOf (fit_auto_arima L st full).1 = configOf st ∧
      (fit_auto_arima L st full).1.is_fitted = st.is_fitted := by
  refine ⟨?_, ?_⟩ <;> (unfold fit_auto_arima arimaFinish; dsimp only; repeat' split) <;> rfl

theorem core_fit_exponential_smoothing (L : Libs) (st : AutoTS) (full : Bool) :
    configOf (fit_exponential_smoothing L st full).1 = configOf st ∧
      (fit_exponential_smoothing L st full).1.is_fitted = st.is_fitted := by
  refine ⟨?_, ?_⟩ <;> (unfold fit_exponential_smoothing; dsimp only; repeat' split) <;> rfl

theorem core_fit_tbats (L : Libs) (st : AutoTS) (full : Bool) :
    configOf (fit_tbats L st full).1 = configOf st ∧
      (fit_tbats L st full).1.is_fitted = st.is_fitted := by
  refine ⟨?_, ?_⟩ <;> (unfold fit_tbats; dsimp only; repeat' split) <;> rfl

theorem core_appendCandidate (st : AutoTS) (cm : CandidateModel) :
    configOf (appendCandidate st cm).1 = configOf st ∧
      (appendCandidate st cm).1.is_fitted = st.is_fitted := by
  unfold appendCandidate
  split
  · exact ⟨rfl, rfl⟩
  · exact ⟨rfl, rfl⟩

theorem core_fitStep (L : Libs) (name : ModelName)
    (fitter : Libs → AutoTS → Bool → AutoTS × Except Err CandidateModel)
    (hf : ∀ st, configOf (fitter L st true).1 = configOf st ∧
      (fitter L st true).1.is_fitted = st.is_fitted) (st : AutoTS) :
    configOf (fitStep L name fitter st).1 = configOf st ∧
      (fitStep L name fitter st).1.is_fitted = st.is_fitted := by
  unfold fitStep
  split
  · rcases hfit : fitter L st true with ⟨st1, r⟩
    have hcore := hf st
    rw [hfit] at hcore
    cases r with
    | error e => simpa using hcore
    | ok cm =>
      have happ := core_appendCandidate st1 cm
      simp only []
      exact ⟨happ.1.trans hcore.1, happ.2.trans hcore.2⟩
  · exact ⟨rfl, rfl⟩

theorem core_fitStepEnsemble (L : Libs) (st : AutoTS) :
    configOf (fitStepEnsemble L st).1 = configOf st ∧
      (fitStepEnsemble L st).1.is_fitted = st.is_fitted := by
  unfold fitStepEnsemble
  split
  · split
    · exact ⟨rfl, rfl⟩
    · split
      · exact ⟨rfl, rfl⟩
      · exact core_appendCandidate st _
  · exact ⟨rfl, rfl⟩

theorem core_andThen (r : AutoTS × Option Err) (f : AutoTS → AutoTS × Option Err)
    (hf : ∀ st, configOf (f st).1 = configOf st ∧ (f st).1.is_fitted = st.is_fitted) :
    configOf (andThen r f).1 = configOf r.1 ∧
      (andThen r f).1.is_fitted = r.1.is_fitted := by
  rcases r with ⟨st, o⟩
  cases o with
  | none => exact hf st
  | some e => exact ⟨rfl, rfl⟩

theorem finalize_err (st st' : AutoTS) (e : Err) (h : finalize st = (st', some e)) :
    configOf st' = configOf st ∧ st'.is_fitted = st.is_fitted := by
  unfold finalize at h
  revert h
  split
  · intro h
    cases h
    exact ⟨rfl, rfl⟩
  · unfold selectBest
    dsimp only
    split
    · intro h
      cases h
      exact ⟨rfl, rfl⟩
    · intro h
      cases h

theorem finalize_ok (st st' : AutoTS) (h : finalize st = (st', none)) :
    st'.is_fitted = true ∧ configOf st' = configOf st := by
  unfold finalize at h
  revert h
  split
  · intro h
    cases h
  · unfold selectBest
    dsimp only
    split
    · intro h
      cases h
    · intro h
      cases h
      exact ⟨rfl, rfl⟩

theorem core_ensAdd (st : AutoTS) (name : ModelName) (cn : String)
    (run : AutoTS → Except Err (List (ℤ × ℚ)))
    (acc : List (String × List (ℤ × ℚ))) (st' : AutoTS)
    (r : Except Err (List (String × List (ℤ × ℚ))))
    (h : ensAdd st name cn run acc = (st', r)) :
    configOf st' = configOf st ∧ st'.is_fitted = st.is_fitted := by
  unfold ensAdd at h
  revert h
  dsimp only
  repeat' split
  all_goals intro h
  all_goals cases h
  all_goals exact ⟨rfl, rfl⟩

theorem core_predict_ensemble (st : AutoTS) (s e l : ℤ) (ex : Option Frame)
    (st' : AutoTS) (r : Except Err (List (ℤ × ℚ)))
    (h : predict_ensemble st s e l ex = (st', r)) :
    configOf st' = configOf st ∧ st'.is_fitted = st.is_fitted := by
  unfold predict_ensemble at h
  rcases hA : ensAdd st .auto_arima "auto_arima_predictions"
      (fun s1 => predict_auto_arima s1 s e l ex) [] with ⟨stA, rA⟩
  rw [hA] at h
  have cA := core_ensAdd _ _ _ _ _ _ _ hA
  cases rA with
  | error eA => dsimp only at h; cases h; exact cA
  | ok accA =>
    dsimp only at h
    rcases hB : ensAdd stA .exponential_smoothing "exponential_smoothing_predictions"
        (fun s1 => predict_exponential_smoothing s1 s e) accA with ⟨stB, rB⟩
    rw [hB] at h
    have cB := core_ensAdd _ _ _ _ _ _ _ hB
    cases rB with
    | error eB => dsimp only at h; cases h; exact ⟨cB.1.trans cA.1, cB.2.trans cA.2⟩
    | ok accB =>
      dsimp only at h
      rcases hC : ensAdd stB .tbats "tbats_predictions"
          (fun s1 => predict_tbats s1 s e l) accB with ⟨stC, rC⟩
      rw [hC] at h
      have cC := core_ensAdd _ _ _ _ _ _ _ hC
      have cAll : configOf stC = configOf st ∧ stC.is_fitted = st.is_fitted :=
        ⟨(cC.1.trans cB.1).trans cA.1, (cC.2.trans cB.2).trans cA.2⟩
      cases rC with
      | error eC => dsimp only at h; cases h; exact cAll
      | ok accC =>
        dsimp only at h
        revert h
        unfold ensembleCombine
        dsimp only
        repeat' split
        all_goals intro h
        all_goals cases h
        all_goals exact cAll

theorem core_predict (st : AutoTS) (s e : ℤ) (ex : Option Frame)
    (st' : AutoTS) (r : Except Err (Option (List (ℤ × ℚ))))
    (h : predict st s e ex = (st', r)) :
    configOf st' = configOf st ∧ st'.is_fitted = st.is_fitted := by
  unfold predict at h
  revert h
  repeat' split
  all_goals intro h
  all_goals try (cases h; exact ⟨rfl, rfl⟩)
  all_goals (cases h; rename_i heq; exact core_predict_ensemble _ _ _ _ _ _ _ heq)

theorem chain_core (L : Libs) (st2 st' : AutoTS) (o : Option Err)
    (h : andThen (andThen (andThen (andThen
        (fitStep L .auto_arima fit_auto_arima st2)
        (fitStep L .exponential_smoothing fit_exponential_smoothing))
        (fitStep L .tbats fit_tbats))
        (fitStepEnsemble L))
        finalize = (st', o)) :
    configOf st' = configOf st2 ∧
      (o.isSome = true → st'.is_fitted = st2.is_fitted) ∧
      (o = none → st'.is_fitted = true) := by
  have c1 := core_fitStep L .auto_arima fit_auto_arima
    (fun s => core_fit_auto_arima L s true) st2
  have c2 := core_andThen (fitStep L .auto_arima fit_auto_arima st2)
    (fitStep L .exponential_smoothing fit_exponential_smoothing)
    (fun s => core_fitStep L _ _ (fun s' => core_fit_exponential_smoothing L s' true) s)
  have c3 := core_andThen (andThen (fitStep L .auto_arima fit_auto_arima st2)
      (fitStep L .exponential_smoothing fit_exponential_smoothing))
    (fitStep L .tbats fit_tbats)
    (fun s => core_fitStep L _ _ (fun s' => core_fit_tbats L s' true) s)
  have c4 := core_andThen (andThen (andThen (fitStep L .auto_arima fit_auto_arima st2)
      (fitStep L .exponential_smoothing fit_exponential_smoothing))
      (fitStep L .tbats fit_tbats))
    (fitStepEnsemble L)
    (fun s => core_fitStepEnsemble L s)
  have cP : configOf (andThen (andThen (andThen
      (fitStep L .auto_arima fit_auto_arima st2)
      (fitStep L .exponential_smoothing fit_exponential_smoothing))
      (fitStep L .tbats fit_tbats))
      (fitStepEnsemble L)).1 = configOf st2 ∧
      (andThen (andThen (andThen
      (fitStep L .auto_arima fit_auto_arima st2)
      (fitStep L .exponential_smoothing fit_exponential_smoothing))
      (fitStep L .tbats fit_tbats))
      (fitStepEnsemble L)).1.is_fitted = st2.is_fitted :=
    ⟨((c4.1.trans c3.1).trans c2.1).trans c1.1,
     ((c4.2.trans c3.2).trans c2.2).trans c1.2⟩
  rcases hP : andThen (andThen (andThen
      (fitStep L .auto_arima fit_auto_arima st2)
      (fitStep L .exponential_smoothing fit_exponential_smoothing))
      (fitStep L .tbats fit_tbats))
      (fitStepEnsemble L) with ⟨stm, om⟩
  rw [hP] at h cP
  cases om with
  | some e0 =>
    cases h
    exact ⟨cP.1, fun _ => cP.2, fun hc => nomatch hc⟩
  | none =>
    have h2 : finalize stm = (st', o) := h
    cases o with
    | some e =>
      have hf := finalize_err stm st' e h2
      exact ⟨hf.1.trans cP.1, fun _ => hf.2.trans cP.2, fun hc => nomatch hc⟩
    | none =>
      have hf := finalize_ok stm st' h2
      exact ⟨hf.2.trans cP.1, fun hs => by simp at hs, fun _ => hf.1⟩

theorem fit_core (L : Libs) (df : Frame) (col : String) (exog : Option (List String))
    (st st' : AutoTS) (o : Option Err) (h : fit L df col exog st = (st', o)) :
    configOf st' = configOf st ∧
      (o.isSome = true → st'.is_fitted = st.is_fitted) ∧
      (o = none → st'.is_fitted = true) := by
  unfold fit at h
  revert h
  split
  · intro h
    cases h
    exact ⟨rfl, fun _ => rfl, fun hc => nomatch hc⟩
  · dsimp only
    intro h
    have hc := chain_core L _ st' o h
    have hst2 : configOf (if exog.isSome = true then
        { set_input_data df col st with using_exogenous := true, exogenous := exog }
        else set_input_data df col st) = configOf st ∧
        (if exog.isSome = true then
        { set_input_data df col st with using_exogenous := true, exogenous := exog }
        else set_input_data df col st).is_fitted = st.is_fitted := by
      split <;> exact ⟨rfl, rfl⟩
    exact ⟨hc.1.trans hst2.1, fun hs => (hc.2.1 hs).trans hst2.2, hc.2.2⟩

/-! ### Further concrete fixtures -/

/-- A trivial fitted-model handle whose oracles return zero-filled outputs of
the requested lengths. -/
def fm0 : FitModel :=
  { predictInSampleRange := fun _ _ => []
    predictInSampleFrom := fun _ => []
    predictOut := fun n => List.replicate n 0
    esPredictFull := fun _ _ => []
    forecast := fun n => List.replicate n 0
    yHat := [] }

/-- External libraries that always succeed and score everything as 0. -/
def LOK : Libs :=
  { autoArima := fun _ => .ok fm0
    updateArima := fun m _ => m
    esFit := fun _ => .ok fm0
    batsFit := fun _ => .ok fm0
    maseFn := fun _ => 0
    mseFn := fun _ => 0
    rmseFn := fun _ => 0 }

/-- Like LOK but the exponential-smoothing fit raises a non-ValueError
estimation failure. -/
def LFAIL : Libs := { LOK with esFit := fun _ => .error .libOtherError }

/-- A 24-month input frame of constant value 1 (the spec's scenario series). -/
def df24 : Frame := { index := dateRange 0 23, values := List.replicate 24 1 }

/-- A fresh instance configured with only exponential_smoothing. -/
def st9 : AutoTS := initAutoTS [ModelName.exponential_smoothing] .mase none 4 none none none

/-- A fresh instance configured with auto_arima then exponential_smoothing. -/
def st10 : AutoTS :=
  initAutoTS [ModelName.auto_arima, ModelName.exponential_smoothing] .mase none 4 none none none

/-- C8: when the first auto_arima call raises a ValueError (the numerical
seasonal-differencing failure), _fit_auto_arima retries exactly once with
seasonal_test="ch"; if the retry also raises, that second failure propagates
to the caller unmodified, and a non-ValueError first failure propagates with
no retry at all. -/
theorem C8_arima_retry_once (L : Libs) (st : AutoTS) (df : Frame)
    (hd : st.data = some df) :
    (∀ e1 e2 : Err,
      L.autoArima (mkArimaCall st df st.auto_arima_args) = .error e1 →
      isValueError e1 = true →
      L.autoArima (mkArimaCall
        { st with auto_arima_args := { st.auto_arima_args with seasonal_test := some "ch" } }
        df { st.auto_arima_args with seasonal_test := some "ch" }) = .error e2 →
      fit_auto_arima L st true =
        ({ st with auto_arima_args := { st.auto_arima_args with seasonal_test := some "ch" } },
          .error e2)) ∧
    (∀ e1 : Err,
      L.autoArima (mkArimaCall st df st.auto_arima_args) = .error e1 →
      isValueError e1 = false →
      fit_auto_arima L st true = (st, .error e1)) := by
  constructor
  · intro e1 e2 h1 hv h2
    unfold fit_auto_arima
    dsimp only
    rw [if_pos rfl]
    nth_rewrite 1 [hd]
    try dsimp only
    rw [h1]
    try dsimp only
    rw [hv, if_pos rfl]
    try dsimp only
    try dsimp only at h2
    rw [h2]
  · intro e1 h1 hv
    unfold fit_auto_arima
    dsimp only
    rw [if_pos rfl]
    nth_rewrite 1 [hd]
    try dsimp only
    rw [h1]
    try dsimp only
    rw [hv, if_neg (by simp)]

/-- Libraries for the C8 witness: the first differencing test raises a
ValueError, the "ch" retry raises a distinct non-ValueError failure. -/
def L8 : Libs :=
  { LOK with autoArima := fun c =>
      if c.args.seasonal_test = some "ch" then .error .libOtherError
      else .error .libValueError }

/-- A state holding data, ready for a direct _fit_auto_arima call. -/
def st8 : AutoTS := { st0 with data := some df24 }

/-- Witness for C8: with both calls failing, the retry's distinct error is
the one surfaced, and the kwargs dict ends up with seasonal_test="ch". -/
theorem C8_witness :
    fit_auto_arima L8 st8 true =
      ({ st8 with auto_arima_args := { st8.auto_arima_args with seasonal_test := some "ch" } },
        .error .libOtherError) :=
  (C8_arima_retry_once L8 st8 df24 rfl).1 .libValueError .libOtherError rfl rfl rfl

/-- C9 (counterexample): the claim that the caller-supplied option dicts are
unchanged by every fit call is false: a successful fit with an
exponential-smoothing model mutates the shared exponential_smoothing_args
dict in place, inserting the default trend and seasonal keys. -/
theorem C9_counterexample :
    (fit LOK df24 "y" none st9).1.exponential_smoothing_args ≠
      st9.exponential_smoothing_args := by
  decide

/-- C9 (amended): the scalar configuration (model set, error metric,
seasonality, holdout length) is unchanged by every fit and predict call, but
the per-model-family option dicts are mutated in place: the
exponential-smoothing fitter inserts trend="add" when the key is absent, the
tbats fitter inserts n_jobs=1 when absent, and the auto-arima ValueError
retry forces seasonal_test="ch" into the shared dict. -/
theorem C9_config_immutable_except_dicts :
    (∀ (L : Libs) (df : Frame) (col : String) (exog : Option (List String))
      (st st' : AutoTS) (o : Option Err),
      fit L df col exog st = (st', o) → configOf st' = configOf st) ∧
    (∀ (st : AutoTS) (s e : ℤ) (ex : Option Frame) (st' : AutoTS)
      (r : Except Err (Option (List (ℤ × ℚ)))),
      predict st s e ex = (st', r) → configOf st' = configOf st) ∧
    (∀ (L : Libs) (st : AutoTS) (full : Bool),
      st.exponential_smoothing_args.trend = none →
      (fit_exponential_smoothing L st full).1.exponential_smoothing_args.trend =
        some (some "add")) ∧
    (∀ (L : Libs) (st : AutoTS) (full : Bool),
      st.tbats_args.n_jobs = none →
      (fit_tbats L st full).1.tbats_args.n_jobs = some 1) ∧
    (∀ (L : Libs) (st : AutoTS) (df : Frame) (e1 : Err),
      st.data = some df →
      L.autoArima (mkArimaCall st df st.auto_arima_args) = .error e1 →
      isValueError e1 = true →
      (fit_auto_arima L st true).1.auto_arima_args.seasonal_test = some "ch") := by
  refine ⟨?_, ?_, ?_, ?_, ?_⟩
  · intro L df col exog st st' o h
    exact (fit_core L df col exog st st' o h).1
  · intro st s e ex st' r h
    exact (core_predict st s e ex st' r h).1
  · intro L st full ht
    unfold fit_exponential_smoothing
    dsimp only
    rw [if_pos ht]
    repeat' split
    all_goals rfl
  · intro L st full hn
    unfold fit_tbats
    dsimp only
    rw [if_pos hn]
    repeat' split
    all_goals rfl
  · intro L st df e1 hd h1 hv
    unfold fit_auto_arima
    dsimp only
    rw [if_pos rfl]
    nth_rewrite 1 [hd]
    try dsimp only
    rw [h1]
    try dsimp only
    rw [hv, if_pos rfl]
    try dsimp only
    unfold arimaFinish
    repeat' split
    all_goals rfl

/-- Witness for C9 (amended): a concrete fit run preserving the configuration
and the concrete exponential-smoothing default insertion. -/
theorem C9_witness :
    configOf (fit LOK df24 "y" none st9).1 = configOf st9 ∧
      st9.exponential_smoothing_args.trend = none ∧
      (fit_exponential_smoothing LOK st9 true).1.exponential_smoothing_args.trend =
        some (some "add") := by
  have h2 : fit LOK df24 "y" none st9 =
      ((fit LOK df24 "y" none st9).1, (fit LOK df24 "y" none st9).2) := rfl
  exact ⟨C9_config_immutable_except_dicts.1 LOK df24 "y" none st9 _ _ h2, rfl,
    C9_config_immutable_except_dicts.2.2.1 LOK st9 true rfl⟩

/-- C10: is_fitted becomes true only when fit returns without raising; every
failed fit leaves the flag as it was, so predict still fails with the state
error after any sequence of failed fits, even though a failed fit has
already mutated data, training_data, testing_data and possibly appended
candidate models (exhibited concretely: an auto_arima candidate is retained
even though the subsequent exponential-smoothing fit aborted the call). -/
theorem C10_fitted_flag_discipline :
    (∀ (L : Libs) (df : Frame) (col : String) (exog : Option (List String))
      (st st' : AutoTS) (e : Err),
      fit L df col exog st = (st', some e) → st'.is_fitted = st.is_fitted) ∧
    (∀ (L : Libs) (df : Frame) (col : String) (exog : Option (List String))
      (st st' : AutoTS),
      fit L df col exog st = (st', none) → st'.is_fitted = true) ∧
    (∀ (st : AutoTS) (s e : ℤ) (ex : Option Frame), st.is_fitted = false →
      (predict st s e ex).2 = .error .notFitted) ∧
    ((fit LFAIL df24 "y" none st10).2 = some .libOtherError ∧
      (fit LFAIL df24 "y" none st10).1.is_fitted = false ∧
      (fit LFAIL df24 "y" none st10).1.data = some df24 ∧
      st10.data = none ∧
      ((fit LFAIL df24 "y" none st10).1.candidate_models.map List.length) = some 1 ∧
      (fit LFAIL df24 "y" none st10).1.testing_data ≠ st10.testing_data) := by
  refine ⟨?_, ?_, ?_, ?_, ?_, ?_, ?_, ?_, ?_⟩
  · intro L df col exog st st' e h
    exact (fit_core L df col exog st st' (some e) h).2.1 rfl
  · intro L df col exog st st' h
    exact (fit_core L df col exog st st' none h).2.2 rfl
  · intro st s e ex h
    simp [predict, h]
  · decide
  · decide
  · decide
  · decide
  · rfl
  · decide

/-- Witness for C10 at the concrete failing run: the failed fit leaves the
fitted flag as it was (false), and predict on that partially mutated state
still raises the state error. -/
theorem C10_witness :
    (fit LFAIL df24 "y" none st10).1.is_fitted = st10.is_fitted ∧
      (predict (fit LFAIL df24 "y" none st10).1 24 24 none).2 = .error .notFitted := by
  have h2 : (fit LFAIL df24 "y" none st10).2 = some Err.libOtherError := by decide
  have heq : fit LFAIL df24 "y" none st10 =
      ((fit LFAIL df24 "y" none st10).1, some Err.libOtherError) := by rw [← h2]
  exact ⟨C10_fitted_flag_discipline.1 LFAIL df24 "y" none st10 _ _ heq,
    C10_fitted_flag_discipline.2.2.1 _ 24 24 none
      ((C10_fitted_flag_discipline.1 LFAIL df24 "y" none st10 _ _ heq).trans rfl)⟩

/-- A fresh instance configured with only the ensemble model. -/
def st5a : AutoTS := initAutoTS [ModelName.ensemble] .mase none 4 none none none

/-- A single prior candidate with a one-row test table. -/
def cm5 : CandidateModel :=
  { error := 0, fit_model := none, model_type := .exponential_smoothing,
    predictions := [Row.mk 0 [("actuals", 1), ("es_test_predictions", 2)]] }

/-- A state holding exactly one prior candidate. -/
def st5b : AutoTS := { st0 with candidate_models := some [cm5] }

/-- C5 (counterexample): with ensemble configured and zero other candidates,
fit fails with the TypeError from reducing an empty sequence, not with the
InvalidConfiguration guard error; and with exactly one prior candidate,
fitting the ensemble succeeds rather than failing. -/
theorem C5_counterexample :
    (fit LOK df24 "y" none st5a).2 = some Err.typeErrorReduceEmpty ∧
      some Err.typeErrorReduceEmpty ≠ some Err.noCandidatesToEnsemble ∧
      (fit_ensemble LOK st5b).toOption.isSome = true := by
  refine ⟨by decide, by decide, by decide⟩

/-- C5 (amended): if ensemble is configured and zero other candidates were
produced, fit does fail fatally, but with the TypeError raised by
functools.reduce on an empty sequence — the guard raising the
InvalidConfiguration error compares the candidate list against None and
never fires, since the attribute is always a list; and fitting the ensemble
succeeds whenever at least one prior candidate exists (in particular with
exactly one, contradicting a fewer-than-2 failure rule). -/
theorem C5_ensemble_empty_behavior :
    (∀ (L : Libs) (df : Frame) (col : String) (st : AutoTS),
      check_datetime_index df = true →
      st.candidate_models = some [] →
      ModelName.auto_arima ∉ st.model_names →
      ModelName.exponential_smoothing ∉ st.model_names →
      ModelName.tbats ∉ st.model_names →
      ModelName.ensemble ∈ st.model_names →
      fit L df col none st = (set_input_data df col st, some .typeErrorReduceEmpty)) ∧
    (∀ (L : Libs) (st : AutoTS) (c : CandidateModel),
      st.candidate_models = some [c] →
      ∃ cm, fit_ensemble L st = .ok cm ∧ cm.model_type = .ensemble) := by
  constructor
  · intro L df col st hvalid hcs haa hes htb hens
    have hm : (set_input_data df col st).model_names = st.model_names := rfl
    have hc : (set_input_data df col st).candidate_models = st.candidate_models := rfl
    unfold fit
    rw [hvalid]
    rw [if_neg (by simp : ¬ (true = false))]
    simp only [Option.isSome_none, Bool.false_eq_true, if_false]
    unfold fitStep andThen
    rw [hm, if_neg haa]
    dsimp only
    rw [hm, if_neg hes]
    dsimp only
    rw [hm, if_neg htb]
    dsimp only
    unfold fitStepEnsemble
    rw [hm, if_pos hens]
    rw [hc, hcs]
    simp only [Option.isNone_some, Bool.false_eq_true, if_false]
    unfold fit_ensemble
    rw [hc, hcs]
    dsimp only
    rfl
  · intro L st c hcs
    unfold fit_ensemble
    rw [hcs]
    exact ⟨_, rfl, rfl⟩

/-- Witness for C5 (amended) at concrete inputs: the empty-candidates run
ends in the reduce TypeError, and the one-candidate ensemble fit succeeds. -/
theorem C5_witness :
    fit LOK df24 "y" none st5a = (set_input_data df24 "y" st5a, some .typeErrorReduceEmpty) ∧
      ∃ cm, fit_ensemble LOK st5b = .ok cm ∧ cm.model_type = .ensemble :=
  ⟨C5_ensemble_empty_behavior.1 LOK df24 "y" st5a (by decide) rfl (by decide) (by decide)
      (by decide) (by decide),
   C5_ensemble_empty_behavior.2 LOK st5b cm5 rfl⟩

/-- A fitted handle whose oracles return distinguishable values: historical
in-sample fitted values are 7, pmdarima out-of-sample forecasts are 99 and
tbats forecasts are 88. -/
def fmC4 : FitModel :=
  { predictInSampleRange := fun i j => List.replicate (j - i + 1) 7
    predictInSampleFrom := fun i => List.replicate (24 - i) 7
    predictOut := fun n => List.replicate n 99
    esPredictFull := fun s e => (dateRange s e).map fun t => (t, 7)
    forecast := fun n => List.replicate n 88
    yHat := List.replicate 24 7 }

/-- A fitted state over the 24-month frame with fmC4 as winner. -/
def st4 : AutoTS :=
  { st0 with data := some df24, fit_model := some fmC4,
             fit_model_type := some .auto_arima, is_fitted := true }

/-- C4: evidence of the classification bug at the boundary.  For the request
start_date = end_date = 23 (the last observed date, which the spec
classifies as fully in-sample), the auto_arima predictor returns 99, the
value of a fit_model.predict(1) out-of-sample forecast step, not the
historical in-sample fitted value 7 that predict_in_sample would have
produced; the tbats predictor likewise returns its forecast value 88.  The
strict start_date < last condition in the source (lines 312 and 344) sends
the request to the branch whose comment claims it can only see
start_date = last + 1. -/
theorem C4_boundary_out_of_sample :
    predict_auto_arima st4 23 23 23 none = .ok [(23, 99)] ∧
      predict_tbats st4 23 23 23 = .ok [(23, 88)] ∧
      (predict st4 23 23 none).2 = .ok (some [(23, 99)]) ∧
      fmC4.predictInSampleRange 23 23 = [7] := by
  refine ⟨rfl, rfl, rfl, by decide⟩

/-! ### Lemmas about the ensemble's timestamp join -/

theorem find_ts_map (T : List ℤ) (g : ℤ → Row) (hg : ∀ u ∈ T, (g u).ts = u)
    (t : ℤ) (ht : t ∈ T) :
    (T.map g).find? (fun x => decide (x.ts = t)) = some (g t) := by
  induction T with
  | nil => cases ht
  | cons u T' ih =>
    rw [List.map_cons, List.find?_cons]
    by_cases hut : u = t
    · subst hut
      rw [hg u (List.mem_cons_self u T')]
      simp
    · have hne : (decide ((g u).ts = t)) = false := by
        rw [hg u (List.mem_cons_self u T')]
        simp [hut]
      rw [hne]
      exact ih (fun v hv => hg v (List.mem_cons_of_mem u hv))
        (List.mem_of_ne_of_mem (fun h => hut h.symm) ht)

theorem mergeDropActuals_map (S T : List ℤ) (g g' : ℤ → Row)
    (hg : ∀ u ∈ S, (g u).ts = u) (hg' : ∀ u ∈ T, (g' u).ts = u)
    (hsub : ∀ u ∈ S, u ∈ T) :
    mergeDropActuals (S.map g) (T.map g') =
      S.map fun t => Row.mk t
        ((g t).cols ++ (g' t).cols.filter fun c => !decide (c.1 = "actuals")) := by
  induction S with
  | nil => rfl
  | cons u S' ih =>
    unfold mergeDropActuals
    rw [List.map_cons, List.filterMap_cons]
    have hu : (g u).ts = u := hg u (List.mem_cons_self u S')
    rw [hu, find_ts_map T g' hg' u (hsub u (List.mem_cons_self u S'))]
    rw [Option.map_some']
    unfold mergeDropActuals at ih
    rw [ih (fun v hv => hg v (List.mem_cons_of_mem u hv))
      (fun v hv => hsub v (List.mem_cons_of_mem u hv))]
    rfl

/-- A single-model test table row as _fit_ensemble receives it: an actuals
column plus one named predictions column, as a function of the timestamp. -/
def specRow (A : ℤ → ℚ) (sp : String × (ℤ → ℚ)) (t : ℤ) : Row :=
  Row.mk t [("actuals", A t), (sp.1, sp.2 t)]

/-- The accumulated merge of several such tables: the left table's actuals
column followed by one predictions column per merged model. -/
def accRow (A : ℤ → ℚ) (done : List (String × (ℤ → ℚ))) (t : ℤ) : Row :=
  Row.mk t (("actuals", A t) :: done.map fun sp => (sp.1, sp.2 t))

theorem foldl_merge_spec (T : List ℤ) (A : ℤ → ℚ)
    (done rest : List (String × (ℤ → ℚ)))
    (hnames : ∀ sp ∈ rest, sp.1 ≠ "actuals") :
    (rest.map fun sp => T.map (specRow A sp)).foldl mergeDropActuals
        (T.map (accRow A done)) =
      T.map (accRow A (done ++ rest)) := by
  induction rest generalizing done with
  | nil => simp
  | cons sp rest' ih =>
    rw [List.map_cons, List.foldl_cons]
    have hstep : mergeDropActuals (T.map (accRow A done)) (T.map (specRow A sp)) =
        T.map (accRow A (done ++ [sp])) := by
      rw [mergeDropActuals_map T T (accRow A done) (specRow A sp)
        (fun u _ => rfl) (fun u _ => rfl) (fun u hu => hu)]
      apply List.map_congr_left
      intro t _
      unfold accRow specRow
      have hsp : sp.1 ≠ "actuals" := hnames sp (List.mem_cons_self sp rest')
      simp [hsp]
    rw [hstep, ih (done ++ [sp]) (fun q hq => hnames q (List.mem_cons_of_mem sp hq)),
      List.append_assoc]
    rfl

theorem find?_append_none {α : Type} (p : α → Bool) (l₁ l₂ : List α)
    (h : ∀ a ∈ l₁, p a = false) : (l₁ ++ l₂).find? p = l₂.find? p := by
  induction l₁ with
  | nil => rfl
  | cons a l ih =>
    rw [List.cons_append, List.find?_cons, h a (List.mem_cons_self a l)]
    exact ih fun b hb => h b (List.mem_cons_of_mem a hb)

/-- C6: the ensemble candidate built by _fit_ensemble joins every prior
candidate's test table on timestamp; its en_test_predictions column equals,
at every timestamp, the arithmetic mean of all constituent prediction
columns; its table has one row per shared timestamp (hence exactly
holdout_period rows); its model_type is ensemble and it carries no fitted
handle. -/
theorem C6_ensemble_mean (L : Libs) (st : AutoTS) (T : List ℤ) (A : ℤ → ℚ)
    (specs : List (String × (ℤ → ℚ))) (cs : List CandidateModel)
    (hcs : st.candidate_models = some cs)
    (htab : cs.map (fun c => c.predictions) = specs.map fun sp => T.map (specRow A sp))
    (hspec : specs ≠ [])
    (hnames : ∀ sp ∈ specs, strEndsWith sp.1 "predictions" = true ∧
      sp.1 ≠ "actuals" ∧ sp.1 ≠ "en_test_predictions")
    (hT : T.length = st.holdout_period) :
    ∃ cm, fit_ensemble L st = .ok cm ∧
      cm.model_type = .ensemble ∧
      cm.fit_model = none ∧
      cm.predictions = (T.map fun t => Row.mk t
        [("actuals", A t),
         ("en_test_predictions",
           ((specs.map fun sp => sp.2 t).sum) / (specs.length : ℚ))]) ∧
      cm.predictions.length = st.holdout_period := by
  obtain ⟨sp0, rest, rfl⟩ : ∃ sp0 rest, specs = sp0 :: rest := by
    cases specs with
    | nil => exact absurd rfl hspec
    | cons a l => exact ⟨a, l, rfl⟩
  unfold fit_ensemble
  rw [hcs]
  dsimp only
  rw [htab, List.map_cons]
  dsimp only
  rw [show T.map (specRow A sp0) = T.map (accRow A [sp0]) from rfl]
  rw [foldl_merge_spec T A [sp0] rest
    (fun q hq => (hnames q (List.mem_cons_of_mem sp0 hq)).2.1)]
  have hrowmean : ∀ t : ℤ, rowMeanPredictionCols
      (Row.mk t (("actuals", A t) :: ((sp0 :: rest).map fun sp => (sp.1, sp.2 t)))) =
      (((sp0 :: rest).map fun sp => sp.2 t).sum) / (((sp0 :: rest).length : ℚ)) := by
    intro t
    unfold rowMeanPredictionCols
    dsimp only
    have hfilter : ((("actuals", A t) :: ((sp0 :: rest).map fun sp => (sp.1, sp.2 t))).filter
        fun c => strEndsWith c.1 "predictions") =
        (sp0 :: rest).map fun sp => (sp.1, sp.2 t) := by
      rw [List.filter_cons_of_neg]
      · rw [List.filter_eq_self]
        intro c hc
        obtain ⟨sp, hsp, rfl⟩ := List.mem_map.mp hc
        exact (hnames sp hsp).1
      · show ¬ strEndsWith "actuals" "predictions" = true
        decide
    rw [hfilter, List.map_map, List.length_map]
    rfl
  have hsel : ∀ t : ℤ,
      selectColumns (Row.mk t ((accRow A (sp0 :: rest) t).cols ++
        [("en_test_predictions", rowMeanPredictionCols (accRow A (sp0 :: rest) t))]))
        ["actuals", "en_test_predictions"] =
      Row.mk t [("actuals", A t),
        ("en_test_predictions",
          (((sp0 :: rest).map fun sp => sp.2 t).sum) / (((sp0 :: rest).length : ℚ)))] := by
    intro t
    unfold selectColumns accRow
    dsimp only
    rw [List.cons_append]
    rw [List.filterMap_cons, List.filterMap_cons, List.filterMap_nil]
    rw [List.find?_cons_of_pos]
    swap
    · show decide (("actuals" : String) = "actuals") = true
      decide
    rw [List.find?_cons_of_neg]
    swap
    · show ¬ decide (("actuals" : String) = "en_test_predictions") = true
      decide
    rw [List.find?_append]
    have h1 : (((sp0 :: rest).map fun sp => (sp.1, sp.2 t)).find?
        fun c => decide (c.1 = "en_test_predictions")) = none := by
      rw [List.find?_eq_none]
      intro c hc
      obtain ⟨sp, hsp, rfl⟩ := List.mem_map.mp hc
      simp [(hnames sp hsp).2.2]
    rw [h1]
    rw [hrowmean t]
    rfl
  refine ⟨_, rfl, rfl, rfl, ?_, ?_⟩
  · show ((T.map (accRow A (sp0 :: rest))).map fun r =>
        Row.mk r.ts (r.cols ++ [("en_test_predictions", rowMeanPredictionCols r)])).map
          (fun r => selectColumns r ["actuals", "en_test_predictions"]) = _
    rw [List.map_map, List.map_map]
    apply List.map_congr_left
    intro t _
    simp only [Function.comp_apply]
    exact hsel t
  · show (((T.map (accRow A (sp0 :: rest))).map fun r =>
        Row.mk r.ts (r.cols ++ [("en_test_predictions", rowMeanPredictionCols r)])).map
          (fun r => selectColumns r ["actuals", "en_test_predictions"])).length = _
    rw [List.length_map, List.length_map, List.length_map, hT]

/-- The two constituent prediction columns of the spec's ensemble scenario. -/
def specs6 : List (String × (ℤ → ℚ)) :=
  [("es_test_predictions", fun _ => 2), ("tb_test_predictions", fun _ => 4)]

/-- Two candidates over the shared timestamps [0, 1] with actuals 1. -/
def cs6 : List CandidateModel :=
  [{ error := 0, fit_model := none, model_type := .exponential_smoothing,
     predictions := [0, 1].map (specRow (fun _ => 1) ("es_test_predictions", fun _ => 2)) },
   { error := 0, fit_model := none, model_type := .tbats,
     predictions := [0, 1].map (specRow (fun _ => 1) ("tb_test_predictions", fun _ => 4)) }]

/-- A state with holdout_period 2 holding the two candidates. -/
def st6 : AutoTS :=
  { (initAutoTS [ModelName.exponential_smoothing, .tbats, .ensemble] .mase none 2
      none none none) with candidate_models := some cs6 }

/-- Witness for C6 at the spec's scenario shape: two constituents with
constant predictions 2 and 4; the ensemble table has holdout_period = 2 rows
and its prediction column is the row mean. -/
theorem C6_witness :
    ∃ cm, fit_ensemble LOK st6 = .ok cm ∧
      cm.model_type = .ensemble ∧
      cm.fit_model = none ∧
      cm.predictions = (([0, 1] : List ℤ).map fun t => Row.mk t
        [("actuals", (fun (_ : ℤ) => (1 : ℚ)) t),
         ("en_test_predictions",
           ((specs6.map fun sp => sp.2 t).sum) / (specs6.length : ℚ))]) ∧
      cm.predictions.length = st6.holdout_period :=
  C6_ensemble_mean LOK st6 [0, 1] (fun _ => 1) specs6 cs6 rfl rfl
    (by simp [specs6])
    (by
      intro sp hsp
      simp only [specs6, List.mem_cons, List.not_mem_nil, or_false] at hsp
      rcases hsp with rfl | rfl
      · refine ⟨?_, ?_, ?_⟩
        · show strEndsWith "es_test_predictions" "predictions" = true
          decide
        · show ("es_test_predictions" : String) ≠ "actuals"
          decide
        · show ("es_test_predictions" : String) ≠ "en_test_predictions"
          decide
      · refine ⟨?_, ?_, ?_⟩
        · show strEndsWith "tb_test_predictions" "predictions" = true
          decide
        · show ("tb_test_predictions" : String) ≠ "actuals"
          decide
        · show ("tb_test_predictions" : String) ≠ "en_test_predictions"
          decide)
    rfl

/-! ### The external fitted-model contract and predictor success lemmas -/

/-- Spec section 1's collaborator contract, relative to the n observed data
points: multi-step forecasts return one value per requested step, in-sample
retrieval returns one value per requested historical position, and the
statsmodels date-based predict returns a series labelled by exactly the
requested date range. -/
def FmContract (fm : FitModel) (n : ℕ) : Prop :=
  (∀ i j : ℕ, i ≤ j → j < n → (fm.predictInSampleRange i j).length = j - i + 1) ∧
  (∀ i : ℕ, i < n → (fm.predictInSampleFrom i).length = n - i) ∧
  (∀ k : ℕ, (fm.predictOut k).length = k) ∧
  (∀ s e : ℤ, s ≤ e → (fm.esPredictFull s e).map Prod.fst = dateRange s e) ∧
  fm.yHat.length = n ∧
  (∀ k : ℕ, (fm.forecast k).length = k)

theorem mkSeriesChecked_ok (vals : List ℚ) (x y : ℤ)
    (h : vals.length = (dateRange x y).length) :
    mkSeriesChecked vals x y = .ok ((dateRange x y).zip vals) ∧
      ((dateRange x y).zip vals).map Prod.fst = dateRange x y := by
  constructor
  · unfold mkSeriesChecked
    rw [if_pos h]
  · exact List.map_fst_zip _ _ (le_of_eq h.symm)

theorem reindexSeries_ok (sr : List (ℤ × ℚ)) (idx : List ℤ)
    (h : ∀ t ∈ idx, ∃ p ∈ sr, p.1 = t) :
    ∃ out, reindexSeries sr idx = .ok out ∧ out.map Prod.fst = idx := by
  have hall : idx.all (fun t => (sr.find? fun p => decide (p.1 = t)).isSome) = true := by
    rw [List.all_eq_true]
    intro t ht
    rcases h t ht with ⟨p, hp, hpt⟩
    rw [List.find?_isSome]
    exact ⟨p, hp, by simp [hpt]⟩
  refine ⟨_, by unfold reindexSeries; rw [if_pos hall], ?_⟩
  induction idx with
  | nil => rfl
  | cons t idx' ih =>
    rw [List.all_cons, Bool.and_eq_true] at hall
    rw [List.filterMap_cons]
    rcases Option.isSome_iff_exists.mp hall.1 with ⟨p, hp⟩
    rw [hp, Option.map_some']
    rw [List.map_cons]
    exact congrArg₂ _ rfl (ih (fun u hu => h u (List.mem_cons_of_mem t hu)) hall.2)

theorem filter_zip_fst_length (T : List ℤ) (V : List ℚ) (p : ℤ → Bool)
    (h : V.length = T.length) :
    ((T.zip V).filter fun pr => p pr.1).length = (T.filter p).length := by
  induction T generalizing V with
  | nil => simp
  | cons t T' ih =>
    cases V with
    | nil => simp at h
    | cons v V' =>
      rw [List.zip_cons_cons, List.filter_cons, List.filter_cons]
      by_cases hp : p t
      · simp only [hp, if_pos]
        rw [List.length_cons, List.length_cons, ih V' (by simpa using h)]
      · simp only [hp, if_neg, Bool.false_eq_true]
        exact ih V' (by simpa using h)

theorem mem_zip_fst (T : List ℤ) (V : List ℚ) (h : V.length = T.length)
    (t : ℤ) (ht : t ∈ T) : ∃ v, (t, v) ∈ T.zip V := by
  induction T generalizing V with
  | nil => cases ht
  | cons u T' ih =>
    cases V with
    | nil => simp at h
    | cons v V' =>
      rcases List.mem_cons.mp ht with rfl | hmem
      · exact ⟨v, List.mem_cons_self _ _⟩
      · rcases ih V' (by simpa using h) hmem with ⟨w, hw⟩
        exact ⟨w, List.mem_cons_of_mem _ hw⟩

theorem predict_auto_arima_ok (st : AutoTS) (df : Frame) (a b : ℤ) (fm : FitModel)
    (hd : st.data = some df) (hidx : df.index = dateRange a b) (hab : a ≤ b)
    (hfm : st.fit_model = some fm) (hc : FmContract fm df.index.length)
    (s e : ℤ) (ex : Option Frame)
    (hse : s ≤ e) (hs1 : a ≤ s) (hs2 : s ≤ b + 1) :
    ∃ out, predict_auto_arima st s e b ex = .ok out ∧ out.map Prod.fst = dateRange s e := by
  have hn : df.index.length = (b + 1 - a).toNat := by rw [hidx, dateRange_length]
  unfold predict_auto_arima
  rw [hd, hfm]
  dsimp only
  rw [hidx, pyNegIndex_one_dateRange a b hab]
  dsimp only
  by_cases h1 : s < b ∧ e ≤ b
  · rw [if_pos h1]
    rw [idxLoc_dateRange a b s hs1 (le_of_lt h1.1),
      idxLoc_dateRange a b e (le_trans hs1 hse) h1.2]
    dsimp only
    have hlen : (fm.predictInSampleRange (s - a).toNat (e - a).toNat).length =
        (dateRange s e).length := by
      rw [hc.1 (s - a).toNat (e - a).toNat (by omega) (by omega), dateRange_length]
      omega
    rcases mkSeriesChecked_ok _ s e hlen with ⟨hok, hmap⟩
    exact ⟨_, hok, hmap⟩
  · rw [if_neg h1]
    by_cases h2 : s < b ∧ b < e
    · rw [if_pos h2]
      rw [idxLoc_dateRange a b s hs1 (le_of_lt h2.1)]
      dsimp only
      have hlen : (fm.predictInSampleFrom (s - a).toNat ++
          fm.predictOut (e - b).toNat).length = (dateRange s e).length := by
        rw [List.length_append, hc.2.1 (s - a).toNat (by omega),
          hc.2.2.1 (e - b).toNat, dateRange_length]
        omega
      rcases mkSeriesChecked_ok _ s e hlen with ⟨hok, hmap⟩
      exact ⟨_, hok, hmap⟩
    · rw [if_neg h2]
      have hlen : (fm.predictOut (e - s + 1).toNat).length = (dateRange s e).length := by
        rw [hc.2.2.1, dateRange_length]
        omega
      rcases mkSeriesChecked_ok _ s e hlen with ⟨hok, hmap⟩
      exact ⟨_, hok, hmap⟩

theorem predict_es_ok (st : AutoTS) (fm : FitModel) (n : ℕ)
    (hfm : st.fit_model = some fm) (hc : FmContract fm n)
    (s e : ℤ) (hse : s ≤ e) :
    ∃ out, predict_exponential_smoothing st s e = .ok out ∧
      out.map Prod.fst = dateRange s e := by
  refine ⟨fm.esPredictFull s e, ?_, hc.2.2.2.1 s e hse⟩
  unfold predict_exponential_smoothing
  rw [hfm]

theorem predict_tbats_ok (st : AutoTS) (df : Frame) (a b : ℤ) (fm : FitModel)
    (hd : st.data = some df) (hidx : df.index = dateRange a b) (hab : a ≤ b)
    (hfm : st.fit_model = some fm) (hc : FmContract fm df.index.length)
    (s e : ℤ)
    (hse : s ≤ e) (hs1 : a ≤ s) (hs2 : s ≤ b + 1) :
    ∃ out, predict_tbats st s e b = .ok out ∧ out.map Prod.fst = dateRange s e := by
  have hy : fm.yHat.length = (dateRange a b).length := by
    have := hc.2.2.2.2.1
    rw [hidx] at this
    exact this
  unfold predict_tbats
  rw [hd, hfm]
  dsimp only
  rw [hidx, dateRange_head? a b hab, pyNegIndex_one_dateRange a b hab]
  dsimp only
  rw [if_pos hy]
  rw [List.map_fst_zip _ _ (le_of_eq hy.symm), pyNegIndex_one_dateRange a b hab]
  dsimp only
  by_cases h1 : s < b ∧ e ≤ b
  · rw [if_pos h1]
    have hcov : ∀ t ∈ dateRange s e,
        ∃ p ∈ (dateRange a b).zip fm.yHat |>.filter
          (fun p => decide (s ≤ p.1 ∧ p.1 ≤ e)), p.1 = t := by
      intro t ht
      rw [mem_dateRange] at ht
      rcases mem_zip_fst (dateRange a b) fm.yHat hy t
        ((mem_dateRange a b t).mpr ⟨by omega, by omega⟩) with ⟨v, hv⟩
      refine ⟨(t, v), ?_, rfl⟩
      rw [List.mem_filter]
      exact ⟨hv, by simp; omega⟩
    rcases reindexSeries_ok _ (dateRange s e) hcov with ⟨out, hok, hmap⟩
    exact ⟨out, hok, hmap⟩
  · rw [if_neg h1]
    by_cases h2 : s < b ∧ b < e
    · rw [if_pos h2]
      have hslice : (((dateRange a b).zip fm.yHat).filter
          (fun p => decide (s ≤ p.1))).length = (b + 1 - s).toNat := by
        have hfz := filter_zip_fst_length (dateRange a b) fm.yHat
          (fun t => decide (s ≤ t)) hy
        rw [hfz, filter_dateRange_ge a b s hs1 (by omega), dateRange_length]
      have hlen : ((((dateRange a b).zip fm.yHat).filter
          (fun p => decide (s ≤ p.1))).map (fun p => p.2) ++
          fm.forecast (e - b).toNat).length = (dateRange s e).length := by
        rw [List.length_append, List.length_map, hslice, hc.2.2.2.2.2 (e - b).toNat,
          dateRange_length]
        omega
      rcases mkSeriesChecked_ok _ s e hlen with ⟨hok, hmap⟩
      exact ⟨_, hok, hmap⟩
    · rw [if_neg h2]
      have hlen : (fm.forecast (e - s + 1).toNat).length = (dateRange s e).length := by
        rw [hc.2.2.2.2.2, dateRange_length]
        omega
      rcases mkSeriesChecked_ok _ s e hlen with ⟨hok, hmap⟩
      exact ⟨_, hok, hmap⟩

/-! ### Success of the ensemble predictor -/

theorem seriesToRows_ts (nm : String) (sr : List (ℤ × ℚ)) :
    (seriesToRows nm sr).map Row.ts = sr.map Prod.fst := by
  unfold seriesToRows
  rw [List.map_map]
  rfl

theorem mergeKeepAll_ts (L R : List Row)
    (h : ∀ u ∈ L.map Row.ts, u ∈ R.map Row.ts) :
    (mergeKeepAll L R).map Row.ts = L.map Row.ts := by
  induction L with
  | nil => rfl
  | cons r L' ih =>
    unfold mergeKeepAll
    rw [List.filterMap_cons]
    have hmem : r.ts ∈ R.map Row.ts := h r.ts (by simp)
    rcases List.mem_map.mp hmem with ⟨x, hx, hxts⟩
    have hsome : (R.find? fun y => decide (y.ts = r.ts)).isSome := by
      rw [List.find?_isSome]
      exact ⟨x, hx, by simp [hxts]⟩
    rcases Option.isSome_iff_exists.mp hsome with ⟨y, hy⟩
    rw [hy, Option.map_some', List.map_cons]
    unfold mergeKeepAll at ih
    rw [ih fun u hu => h u (by simp [hu])]
    rfl

theorem fold_merge_ts (t0 : List Row) (rest : List (List Row)) (T : List ℤ)
    (h0 : t0.map Row.ts = T) (hrest : ∀ l ∈ rest, l.map Row.ts = T) :
    (rest.foldl mergeKeepAll t0).map Row.ts = T := by
  induction rest generalizing t0 with
  | nil => exact h0
  | cons l rest' ih =>
    rw [List.foldl_cons]
    refine ih (mergeKeepAll t0 l) ?_ fun q hq => hrest q (List.mem_cons_of_mem l hq)
    rw [mergeKeepAll_ts t0 l (by rw [h0, hrest l (List.mem_cons_self l rest')]; exact fun u hu => hu)]
    exact h0

theorem ensembleCombine_ok (st : AutoTS) (s e : ℤ)
    (acc : List (String × List (ℤ × ℚ)))
    (hacc : acc ≠ []) (hall : ∀ p ∈ acc, p.2.map Prod.fst = dateRange s e) :
    ∃ out, ensembleCombine st s e acc =
      ({ st with fit_model := none, fit_model_type := some .ensemble }, .ok out) ∧
      out.map Prod.fst = dateRange s e := by
  obtain ⟨p0, ps, rfl⟩ : ∃ p0 ps, acc = p0 :: ps := by
    cases acc with
    | nil => exact absurd rfl hacc
    | cons x l => exact ⟨x, l, rfl⟩
  unfold ensembleCombine
  rw [List.map_cons]
  dsimp only
  have hts : ((ps.map fun p => seriesToRows p.1 p.2).foldl mergeKeepAll
      (seriesToRows p0.1 p0.2)).map Row.ts = dateRange s e := by
    refine fold_merge_ts _ _ _ ?_ ?_
    · rw [seriesToRows_ts, hall p0 (List.mem_cons_self p0 ps)]
    · intro l hl
      rcases List.mem_map.mp hl with ⟨p, hp, rfl⟩
      rw [seriesToRows_ts, hall p (List.mem_cons_of_mem p0 hp)]
  have hlen : (((ps.map fun p => seriesToRows p.1 p.2).foldl mergeKeepAll
      (seriesToRows p0.1 p0.2)).map rowMeanAllCols).length = (dateRange s e).length := by
    rw [List.length_map, ← List.length_map _ Row.ts, hts]
  rcases mkSeriesChecked_ok _ s e hlen with ⟨hok, hmap⟩
  rw [hok]
  exact ⟨_, rfl, hmap⟩

theorem ensAdd_step (st : AutoTS) (df : Frame) (name : ModelName) (cn : String)
    (run : AutoTS → Except Err (List (ℤ × ℚ)))
    (acc : List (String × List (ℤ × ℚ))) (cs : List CandidateModel)
    (hd : st.data = some df) (hcs : st.candidate_models = some cs)
    (T : List ℤ)
    (hacc : ∀ p ∈ acc, p.2.map Prod.fst = T)
    (hfam : name ∈ st.model_names →
      ∃ c, (cs.filter fun x => decide (x.model_type = name)).getLast? = some c ∧
        ∃ out, run { st with fit_model := c.fit_model } = .ok out ∧
          out.map Prod.fst = T) :
    ∃ stA accA, ensAdd st name cn run acc = (stA, .ok accA) ∧
      stA.data = some df ∧ stA.candidate_models = some cs ∧
      stA.model_names = st.model_names ∧
      (∀ p ∈ accA, p.2.map Prod.fst = T) ∧
      accA.length = acc.length + (if name ∈ st.model_names then 1 else 0) := by
  by_cases hmem : name ∈ st.model_names
  · rcases hfam hmem with ⟨c, hlast, out, hout, hmap⟩
    unfold ensAdd
    rw [if_pos hmem]
    nth_rewrite 1 [hcs]
    dsimp only
    rw [hlast]
    dsimp only
    rw [hout]
    refine ⟨_, _, rfl, hd, hcs, rfl, ?_, ?_⟩
    · intro p hp
      rcases List.mem_append.mp hp with hp1 | hp2
      · exact hacc p hp1
      · rcases List.mem_singleton.mp hp2 with rfl
        exact hmap
    · rw [List.length_append, if_pos hmem]
      rfl
  · unfold ensAdd
    rw [if_neg hmem]
    exact ⟨st, acc, rfl, hd, hcs, rfl, hacc, by simp [hmem]⟩

/-- The model families other than ensemble, in the order the ensemble
predictor visits them. -/
def famNames : List ModelName := [.auto_arima, .exponential_smoothing, .tbats]

theorem predict_ensemble_ok (st : AutoTS) (df : Frame) (a b : ℤ)
    (hd : st.data = some df) (hab : a ≤ b) (hidx : df.index = dateRange a b)
    (cs : List CandidateModel) (hcs : st.candidate_models = some cs)
    (hpresent : ∃ f, f ∈ st.model_names ∧ f ∈ famNames)
    (hfam : ∀ f ∈ famNames, f ∈ st.model_names →
      ∃ c, (cs.filter fun x => decide (x.model_type = f)).getLast? = some c ∧
        ∃ fm, c.fit_model = some fm ∧ FmContract fm df.index.length)
    (s e : ℤ) (ex : Option Frame)
    (hse : s ≤ e) (hs1 : a ≤ s) (hs2 : s ≤ b + 1) :
    ∃ st' out, predict_ensemble st s e b ex = (st', .ok out) ∧
      out.map Prod.fst = dateRange s e := by
  have hstepA := ensAdd_step st df .auto_arima "auto_arima_predictions"
    (fun s1 => predict_auto_arima s1 s e b ex) [] cs hd hcs (dateRange s e)
    (by simp)
    (by
      intro hmem
      rcases hfam .auto_arima (by simp [famNames]) hmem with ⟨c, hlast, fm, hcfm, hcontract⟩
      refine ⟨c, hlast, ?_⟩
      exact predict_auto_arima_ok { st with fit_model := c.fit_model } df a b fm
        hd hidx hab hcfm hcontract s e ex hse hs1 hs2)
  rcases hstepA with ⟨stA, accA, heqA, hdA, hcsA, hmnA, haccA, hlenA⟩
  have hstepB := ensAdd_step stA df .exponential_smoothing
    "exponential_smoothing_predictions"
    (fun s1 => predict_exponential_smoothing s1 s e) accA cs hdA hcsA (dateRange s e)
    haccA
    (by
      intro hmem
      rw [hmnA] at hmem
      rcases hfam .exponential_smoothing (by simp [famNames]) hmem with
        ⟨c, hlast, fm, hcfm, hcontract⟩
      refine ⟨c, hlast, ?_⟩
      exact predict_es_ok { stA with fit_model := c.fit_model } fm df.index.length
        hcfm hcontract s e hse)
  rcases hstepB with ⟨stB, accB, heqB, hdB, hcsB, hmnB, haccB, hlenB⟩
  have hstepC := ensAdd_step stB df .tbats "tbats_predictions"
    (fun s1 => predict_tbats s1 s e b) accB cs hdB hcsB (dateRange s e)
    haccB
    (by
      intro hmem
      rw [hmnB, hmnA] at hmem
      rcases hfam .tbats (by simp [famNames]) hmem with ⟨c, hlast, fm, hcfm, hcontract⟩
      refine ⟨c, hlast, ?_⟩
      exact predict_tbats_ok { stB with fit_model := c.fit_model } df a b fm
        hdB hidx hab hcfm hcontract s e hse hs1 hs2)
  rcases hstepC with ⟨stC, accC, heqC, hdC, hcsC, hmnC, haccC, hlenC⟩
  have haccne : accC ≠ [] := by
    have hlen : accC.length =
        ((if ModelName.auto_arima ∈ st.model_names then 1 else 0) +
          (if ModelName.exponential_smoothing ∈ st.model_names then 1 else 0)) +
          (if ModelName.tbats ∈ st.model_names then 1 else 0) := by
      rw [hlenC, hlenB, hlenA, hmnB, hmnA]
      simp
    rcases hpresent with ⟨f, hfmem, hffam⟩
    have hpos : 0 < accC.length := by
      simp only [famNames, List.mem_cons, List.not_mem_nil, or_false] at hffam
      rcases hffam with rfl | rfl | rfl
      · rw [hlen, if_pos hfmem]
        omega
      · rw [hlen, if_pos hfmem]
        omega
      · rw [hlen, if_pos hfmem]
        omega
    intro hnil
    rw [hnil] at hpos
    simp at hpos
  rcases ensembleCombine_ok stC s e accC haccne haccC with ⟨out, hok, hmap⟩
  refine ⟨{ stC with fit_model := none, fit_model_type := some .ensemble }, out, ?_, hmap⟩
  unfold predict_ensemble
  rw [heqA]
  dsimp only
  rw [heqB]
  dsimp only
  rw [heqC]
  dsimp only
  exact hok

/-- A structurally fitted state: the winner's type tag is set, and the
handles the dispatched predictor will consult exist and satisfy the library
contract (for an ensemble winner: each configured family has a retained
candidate with a contracted handle, and at least one family is configured). -/
def DispatchReady (st : AutoTS) (df : Frame) : Prop :=
  ∃ t, st.fit_model_type = some t ∧
    (t ≠ .ensemble → ∃ fm, st.fit_model = some fm ∧ FmContract fm df.index.length) ∧
    (t = .ensemble → ∃ cs, st.candidate_models = some cs ∧
      (∃ f, f ∈ st.model_names ∧ f ∈ famNames) ∧
      (∀ f ∈ famNames, f ∈ st.model_names →
        ∃ c, (cs.filter fun x => decide (x.model_type = f)).getLast? = some c ∧
          ∃ fm, c.fit_model = some fm ∧ FmContract fm df.index.length))

theorem predict_ok (st : AutoTS) (df : Frame) (a b : ℤ)
    (hf : st.is_fitted = true) (hd : st.data = some df)
    (hab : a ≤ b) (hidx : df.index = dateRange a b) (hdr : DispatchReady st df)
    (s e : ℤ) (ex : Option Frame)
    (hse : s ≤ e) (hs1 : a ≤ s) (hs2 : s ≤ b + 1)
    (hexog : ¬(st.using_exogenous = true ∧ b < e ∧ ex.isNone = true)) :
    ∃ st' out, predict st s e ex = (st', .ok (some out)) ∧
      out.map Prod.fst = dateRange s e := by
  unfold predict
  rw [hf]
  rw [if_neg (by simp : ¬ (true = false))]
  rw [if_neg (by omega : ¬ s > e)]
  rw [hd]
  dsimp only
  rw [hidx, pyNegIndex_one_dateRange a b hab]
  dsimp only
  rw [if_neg (by omega : ¬ s > b + 1)]
  rw [dateRange_head? a b hab]
  dsimp only
  rw [if_neg (by omega : ¬ s < a)]
  rw [if_neg hexog]
  obtain ⟨t, htype, hnonens, hens⟩ := hdr
  rw [htype]
  cases t with
  | auto_arima =>
    obtain ⟨fm, hfm, hc⟩ := hnonens (by decide)
    obtain ⟨out, hout, hmap⟩ :=
      predict_auto_arima_ok st df a b fm hd hidx hab hfm hc s e ex hse hs1 hs2
    dsimp only
    rw [hout]
    exact ⟨st, out, rfl, hmap⟩
  | exponential_smoothing =>
    obtain ⟨fm, hfm, hc⟩ := hnonens (by decide)
    obtain ⟨out, hout, hmap⟩ := predict_es_ok st fm df.index.length hfm hc s e hse
    dsimp only
    rw [hout]
    exact ⟨st, out, rfl, hmap⟩
  | tbats =>
    obtain ⟨fm, hfm, hc⟩ := hnonens (by decide)
    obtain ⟨out, hout, hmap⟩ :=
      predict_tbats_ok st df a b fm hd hidx hab hfm hc s e hse hs1 hs2
    dsimp only
    rw [hout]
    exact ⟨st, out, rfl, hmap⟩
  | ensemble =>
    obtain ⟨cs, hcs, hpresent, hfam⟩ := hens rfl
    obtain ⟨st', out, hok, hmap⟩ :=
      predict_ensemble_ok st df a b hd hab hidx cs hcs hpresent hfam s e ex hse hs1 hs2
    dsimp only
    rw [hok]
    exact ⟨st', out, rfl, hmap⟩

/-- C3: on a fitted instance, predict with start_date exactly one period past
the last observed date succeeds (the boundary is accepted); predict with
start_date more than one period past the last observed date fails with an
InvalidInput error, as it does when start_date exceeds end_date or precedes
the earliest observed date. -/
theorem C3_predict_range_validation (st : AutoTS) (df : Frame) (a b : ℤ)
    (hf : st.is_fitted = true) (hd : st.data = some df)
    (hab : a ≤ b) (hidx : df.index = dateRange a b) (hdr : DispatchReady st df) :
    (∀ e ex, b + 1 ≤ e →
      ¬(st.using_exogenous = true ∧ b < e ∧ ex.isNone = true) →
      ∃ st' out, predict st (b + 1) e ex = (st', .ok (some out))) ∧
    (∀ s e ex, s > b + 1 →
      ∃ err, (predict st s e ex).2 = .error err ∧ IsInvalidInput err) ∧
    (∀ s e ex, s > e →
      ∃ err, (predict st s e ex).2 = .error err ∧ IsInvalidInput err) ∧
    (∀ s e ex, s < a →
      ∃ err, (predict st s e ex).2 = .error err ∧ IsInvalidInput err) := by
  refine ⟨?_, ?_, ?_, ?_⟩
  · intro e ex he hexog
    obtain ⟨st', out, hok, _⟩ := predict_ok st df a b hf hd hab hidx hdr (b + 1) e ex
      he (by omega) (by omega) hexog
    exact ⟨st', out, hok⟩
  · intro s e ex hs
    by_cases hse : s > e
    · refine ⟨.startAfterEnd, ?_, Or.inl rfl⟩
      unfold predict
      rw [hf, if_neg (by simp : ¬ (true = false)), if_pos hse]
    · refine ⟨.startTooLate, ?_, Or.inr (Or.inl rfl)⟩
      unfold predict
      rw [hf, if_neg (by simp : ¬ (true = false)), if_neg hse, hd]
      dsimp only
      rw [hidx, pyNegIndex_one_dateRange a b hab]
      dsimp only
      rw [if_pos hs]
  · intro s e ex hse
    refine ⟨.startAfterEnd, ?_, Or.inl rfl⟩
    unfold predict
    rw [hf, if_neg (by simp : ¬ (true = false)), if_pos hse]
  · intro s e ex hsa
    by_cases hse : s > e
    · refine ⟨.startAfterEnd, ?_, Or.inl rfl⟩
      unfold predict
      rw [hf, if_neg (by simp : ¬ (true = false)), if_pos hse]
    · refine ⟨.startBeforeData, ?_, Or.inr (Or.inr (Or.inl rfl))⟩
      unfold predict
      rw [hf, if_neg (by simp : ¬ (true = false)), if_neg hse, hd]
      dsimp only
      rw [hidx, pyNegIndex_one_dateRange a b hab]
      dsimp only
      rw [if_neg (by omega : ¬ s > b + 1), dateRange_head? a b hab]
      dsimp only
      rw [if_pos hsa]

/-- C7: on a fitted instance and a valid request, predict returns an ordered
series with exactly one entry per month in [start_date, end_date] inclusive
and no missing periods, hence exactly one value when start_date equals
end_date. -/
theorem C7_predict_one_entry_per_period (st : AutoTS) (df : Frame) (a b : ℤ)
    (hf : st.is_fitted = true) (hd : st.data = some df)
    (hab : a ≤ b) (hidx : df.index = dateRange a b) (hdr : DispatchReady st df)
    (s e : ℤ) (ex : Option Frame)
    (hse : s ≤ e) (hs1 : a ≤ s) (hs2 : s ≤ b + 1)
    (hexog : ¬(st.using_exogenous = true ∧ b < e ∧ ex.isNone = true)) :
    ∃ st' out, predict st s e ex = (st', .ok (some out)) ∧
      out.map Prod.fst = dateRange s e ∧
      out.length = (e + 1 - s).toNat ∧
      (s = e → out.length = 1) := by
  obtain ⟨st', out, hok, hmap⟩ :=
    predict_ok st df a b hf hd hab hidx hdr s e ex hse hs1 hs2 hexog
  have hlen : out.length = (e + 1 - s).toNat := by
    rw [← List.length_map _ Prod.fst, hmap, dateRange_length]
  exact ⟨st', out, hok, hmap, hlen, fun hseq => by rw [hlen]; omega⟩

/-- A contracted handle over the 24-month frame: all oracle outputs are
zero-filled with the contracted lengths and labels. -/
def fmW : FitModel :=
  { predictInSampleRange := fun i j => List.replicate (j - i + 1) 0
    predictInSampleFrom := fun i => List.replicate (24 - i) 0
    predictOut := fun n => List.replicate n 0
    esPredictFull := fun s e => (dateRange s e).map fun t => (t, 0)
    forecast := fun n => List.replicate n 0
    yHat := List.replicate 24 0 }

/-- A fitted state over df24 whose winner is exponential_smoothing. -/
def stW : AutoTS :=
  { st0 with data := some df24, fit_model := some fmW,
             fit_model_type := some .exponential_smoothing, is_fitted := true }

theorem fmW_contract : FmContract fmW df24.index.length := by
  have h24 : df24.index.length = 24 := by decide
  rw [h24]
  refine ⟨?_, ?_, ?_, ?_, ?_, ?_⟩
  · intro i j _ _
    simp [fmW]
  · intro i _
    simp [fmW]
  · intro k
    simp [fmW]
  · intro s e _
    simp only [fmW, List.map_map]
    have : (Prod.fst ∘ fun t : ℤ => (t, (0 : ℚ))) = id := by
      funext t
      rfl
    rw [this, List.map_id]
  · simp [fmW]
  · intro k
    simp [fmW]

theorem stW_ready : DispatchReady stW df24 :=
  ⟨.exponential_smoothing, rfl, fun _ => ⟨fmW, rfl, fmW_contract⟩,
   fun h => absurd h (by decide)⟩

/-- Witness for C3 at the spec's scenario: 24 monthly points (months 0..23);
predict(24, 24) — exactly one period past the last observed date — succeeds,
predict(25, 25) fails with InvalidInput, as do predict(10, 5) and
predict(-3, 5). -/
theorem C3_witness :
    (∃ st' out, predict stW 24 24 none = (st', .ok (some out))) ∧
      (∃ err, (predict stW 25 25 none).2 = .error err ∧ IsInvalidInput err) ∧
      (∃ err, (predict stW 10 5 none).2 = .error err ∧ IsInvalidInput err) ∧
      (∃ err, (predict stW (-3) 5 none).2 = .error err ∧ IsInvalidInput err) := by
  have h := C3_predict_range_validation stW df24 0 23 rfl rfl (by omega) rfl stW_ready
  exact ⟨h.1 24 none (by omega) (by decide), h.2.1 25 25 none (by omega),
    h.2.2.1 10 5 none (by omega), h.2.2.2 (-3) 5 none (by omega)⟩

/-- Witness for C7: a concrete in-sample single-month request returns exactly
one entry, labelled with that month. -/
theorem C7_witness :
    ∃ st' out, predict stW 10 10 none = (st', .ok (some out)) ∧
      out.map Prod.fst = dateRange 10 10 ∧
      out.length = ((10 : ℤ) + 1 - 10).toNat ∧
      ((10 : ℤ) = 10 → out.length = 1) :=
  C7_predict_one_entry_per_period stW df24 0 23 rfl rfl (by omega) rfl stW_ready
    10 10 none (by omega) (by omega) (by omega) (by decide)
